import Mathlib

/-!
# Verification of the online-battle state-synchronization core

This file is a shallow embedding, in Lean 4, of the host-authoritative
state-synchronization and physics-integration layer of the `online-battle`
game client, together with proofs about it.

Embedding conventions:

* JavaScript `number` is modelled as `ℝ`.  The game code never relies on
  float rounding for the properties treated here; where float exactness is
  load-bearing (the seeded color index) the computation is done over `Nat`
  with an explicit exactness argument in the comment.
* JavaScript objects used as string-keyed dictionaries (`state.players`,
  `state.units`, ...) and `Map`s (the `WorldReferences` tables) are modelled
  as association lists (`Table`), preserving insertion order, first-match
  lookup, in-place overwrite and append-on-new-key — the observable
  semantics of JS objects and `Map`s.
* The Rapier physics engine is modelled only through the interface the code
  uses: a `World` is a fresh-handle counter plus a table from rigid-body
  handles to bodies; `world.step()` is an opaque parameter of `simulate`.
* `uuid()` is modelled as a fresh-name generator threaded through the
  entity factory as a `Nat` counter.
-/

set_option linter.unusedVariables false
set_option linter.unnecessarySimpa false

/-! ## Association tables (JS objects and Maps) -/

/-- Insertion-ordered association table: the model of a JS object used as a
dictionary and of a JS `Map`.  Lookup returns the first matching entry. -/
abbrev Table (κ : Type) (α : Type) := List (κ × α)

/-- `t[k]` / `t.get(k)`: first entry whose key equals `k`. -/
def Table.lookup {κ α : Type} [DecidableEq κ] : Table κ α → κ → Option α
  | [], _ => none
  | e :: rest, k => if e.1 = k then some e.2 else Table.lookup rest k

/-- `k in t` / `t.has(k)`. -/
def Table.contains {κ α : Type} [DecidableEq κ] (t : Table κ α) (k : κ) : Bool :=
  (Table.lookup t k).isSome

/-- `t[k] = v` / `t.set(k, v)`: overwrite in place if the key is present,
append otherwise (JS insertion-order semantics). -/
def Table.set {κ α : Type} [DecidableEq κ] : Table κ α → κ → α → Table κ α
  | [], k, v => [(k, v)]
  | e :: rest, k, v => if e.1 = k then (k, v) :: rest else e :: Table.set rest k v

/-- `delete t[k]` / `t.delete(k)`. -/
def Table.erase {κ α : Type} [DecidableEq κ] : Table κ α → κ → Table κ α
  | [], _ => []
  | e :: rest, k => if e.1 = k then Table.erase rest k else e :: Table.erase rest k

/-- `Object.keys(t)`. -/
def Table.keys {κ α : Type} (t : Table κ α) : List κ :=
  t.map Prod.fst

/-- Update the first entry at key `k` with `f` (model of mutating the object
returned by a lookup). -/
def Table.modify {κ α : Type} [DecidableEq κ] : Table κ α → κ → (α → α) → Table κ α
  | [], _, _ => []
  | e :: rest, k, f => if e.1 = k then (k, f e.2) :: rest else e :: Table.modify rest k f

/-! ## Vector math (`src/math/Vector2.ts`) -/

noncomputable section

/-- 2D vector over `ℝ` (JS `number`). -/
structure Vec2 where
  x : ℝ
  y : ℝ

/-- `vector(x, y)`. -/
def vector (x y : ℝ) : Vec2 := ⟨x, y⟩

/-- `origo`: the defined zero vector. -/
def origo : Vec2 := ⟨0, 0⟩

/-- `add(v1, v2)` (the variadic `add` at the arity used by the game code). -/
def Vec2.add (v1 v2 : Vec2) : Vec2 := ⟨v1.x + v2.x, v1.y + v2.y⟩

/-- `sub(v1, v2)`. -/
def Vec2.sub (v1 v2 : Vec2) : Vec2 := ⟨v1.x - v2.x, v1.y - v2.y⟩

/-- `scale(v, scalar)`. -/
def Vec2.scale (v : Vec2) (scalar : ℝ) : Vec2 := ⟨v.x * scalar, v.y * scalar⟩

/-- `div(v, denominator)`. -/
def Vec2.div (v : Vec2) (denominator : ℝ) : Vec2 := ⟨v.x / denominator, v.y / denominator⟩

/-- `norm2(v) = Math.sqrt(v.x * v.x + v.y * v.y)`. -/
def norm2 (v : Vec2) : ℝ := Real.sqrt (v.x * v.x + v.y * v.y)

/-- `lengthSquared(v)`. -/
def lengthSquared (v : Vec2) : ℝ := v.x * v.x + v.y * v.y

/-- `normalized2` (= `normalized`): `undefined` (here `none`) on a
zero-length input, `div v (norm2 v)` otherwise. -/
def normalized2 (v : Vec2) : Option Vec2 :=
  if norm2 v = 0 then none else some (v.div (norm2 v))

/-- `normalized = normalized2`. -/
def normalized (v : Vec2) : Option Vec2 := normalized2 v

/-- `normalize`: total normalization, falling back to the zero vector
(named `Vec2.normalize` because Mathlib already declares `normalize`). -/
def Vec2.normalize (v : Vec2) : Vec2 :=
  if norm2 v = 0 then origo else v.div (norm2 v)

/-- `dist(v1, v2)` (named `Vec2.dist` to avoid Mathlib's `dist`). -/
def Vec2.dist (v1 v2 : Vec2) : ℝ :=
  Real.sqrt ((v2.x - v1.x) * (v2.x - v1.x) + (v2.y - v1.y) * (v2.y - v1.y))

/-! ## Static configuration (`simulation.tsx`, `staticWorldConfig`) -/

/-- `natureConst.g`. -/
def natureConstG : ℝ := 9.82

structure SoldierConfig where
  radius : ℝ
  mass : ℝ
  linearDamping : ℝ
  friction : ℝ
  restitution : ℝ
  walkForcePerKg : ℝ
  runForcePerKg : ℝ

structure PlayerConfig where
  radius : ℝ

structure UnitConfig where
  flagSize : ℝ

structure StaticWorldConfig where
  soldier : SoldierConfig
  player : PlayerConfig
  unit : UnitConfig

/-- `staticWorldConfig` from `simulation.tsx`. -/
def staticWorldConfig : StaticWorldConfig :=
  { soldier :=
      { radius := 5
        mass := 70
        linearDamping := 0.5
        friction := 0.2
        restitution := 0.1
        walkForcePerKg := 1.3 * natureConstG
        runForcePerKg := 2.5 * natureConstG }
    player := { radius := 5 }
    unit := { flagSize := 2 } }

/-! ## Logical game state (`Game.tsx`) -/

/-- A discrete player instruction.  The only tag in the source is
`'moveUnit'`. -/
inductive PlayerInstruction where
  | moveUnit (unitId : String) (position : Vec2)

/-- `Unit` in the source; renamed `GameUnit` because Lean already has a
builtin type called `Unit`. -/
structure GameUnit where
  position : Vec2
  playerId : String

structure Soldier where
  position : Vec2
  unitId : String

structure Player where
  position : Vec2
  color : String

structure PlayerInput where
  movingDirection : Vec2
  instructions : List PlayerInstruction
  selectedUnitId : Option String

structure GameState where
  players : Table String Player
  inputs : Table String PlayerInput
  soldiers : Table String Soldier
  units : Table String GameUnit

/-! ## Physics world model (the Rapier interface used by the code) -/

/-- The slice of a Rapier rigid body + collider that the game code reads or
writes: translation, accumulated force, collider mass and radius. -/
structure Body where
  translation : Vec2
  force : Vec2
  mass : ℝ
  radius : ℝ

/-- The physics world: a fresh-handle counter and the live bodies, keyed by
handle.  Handles are issued in increasing order, as Rapier's arena does. -/
structure World where
  nextHandle : Nat
  bodies : Table Nat Body

def World.getRigidBody (w : World) (h : Nat) : Option Body :=
  Table.lookup w.bodies h

/-- `world.createRigidBody(desc)` (plus the collider attached right after):
append a body at a fresh handle. -/
def World.createRigidBody (w : World) (b : Body) : World × Nat :=
  ({ nextHandle := w.nextHandle + 1, bodies := w.bodies ++ [(w.nextHandle, b)] }, w.nextHandle)

def World.modifyBody (w : World) (h : Nat) (f : Body → Body) : World :=
  { w with bodies := Table.modify w.bodies h f }

/-- `rigidBody.setTranslation(v, wake)`. -/
def World.setTranslation (w : World) (h : Nat) (v : Vec2) : World :=
  w.modifyBody h (fun b => { b with translation := v })

/-- `rigidBody.resetForces(wake)`. -/
def World.resetForces (w : World) (h : Nat) : World :=
  w.modifyBody h (fun b => { b with force := origo })

/-- `rigidBody.addForce(f, wake)`. -/
def World.addForce (w : World) (h : Nat) (f : Vec2) : World :=
  w.modifyBody h (fun b => { b with force := b.force.add f })

/-- `world.removeRigidBody(rigidBody)`. -/
def World.removeRigidBody (w : World) (h : Nat) : World :=
  { w with bodies := Table.erase w.bodies h }

/-- `rigidBody.mass()`. -/
def World.massOf (w : World) (h : Nat) : ℝ :=
  match w.getRigidBody h with
  | some b => b.mass
  | none => 0

/-- Handle resolves to a live body. -/
def liveAt (w : World) (h : Nat) : Prop :=
  (w.getRigidBody h).isSome

def emptyWorld : World := { nextHandle := 0, bodies := [] }

/-! ## Reference table (`simulation.tsx`, `WorldReferences`) -/

/-- Mapping between entity ids and rigid body handles, one `Map` per
category (this variant of the code stores only the id → handle
direction). -/
structure WorldReferences where
  player : Table String Nat
  soldier : Table String Nat

def createWorldReferences : WorldReferences :=
  { player := [], soldier := [] }

/-! ## Body creation and lookup (`createPlayer`/`createSolider`,
`getOrCreatePlayer`/`getOrCreateSoldier`) -/

/-- The rigid body + collider built by `createPlayer`: dynamic body at
`(0, 0)`, ball collider of the player radius, soldier mass. -/
def playerBodyDesc : Body :=
  { translation := vector 0 0
    force := origo
    mass := staticWorldConfig.soldier.mass
    radius := staticWorldConfig.player.radius }

/-- The rigid body + collider built by `createSolider`. -/
def soldierBodyDesc : Body :=
  { translation := vector 0 0
    force := origo
    mass := staticWorldConfig.soldier.mass
    radius := staticWorldConfig.soldier.radius }

/-- Common shape of `createPlayer`/`createSolider` at the level of one
category table: create a fresh body from `desc` and store the mapping. -/
def createBody (desc : Body) (w : World) (t : Table String Nat) (key : String) :
    World × Table String Nat × Nat :=
  let c := w.createRigidBody desc
  (c.1, Table.set t key c.2, c.2)

/-- Common shape of `getOrCreatePlayer`/`getOrCreateSoldier`: reuse the
mapped handle if it still resolves, else create (stale handles are
transparently recreated). -/
def getOrCreateBody (desc : Body) (w : World) (t : Table String Nat) (key : String) :
    World × Table String Nat × Nat :=
  match Table.lookup t key with
  | some h =>
    match w.getRigidBody h with
    | some _ => (w, t, h)
    | none => createBody desc w t key
  | none => createBody desc w t key

/-- `getOrCreatePlayer(world, worldReferences, playerId)`. -/
def getOrCreatePlayer (w : World) (refs : WorldReferences) (playerId : String) :
    World × WorldReferences × Nat :=
  let t := getOrCreateBody playerBodyDesc w refs.player playerId
  (t.1, { refs with player := t.2.1 }, t.2.2)

/-- `getOrCreateSoldier(world, worldReferences, soldierId)`. -/
def getOrCreateSoldier (w : World) (refs : WorldReferences) (soldierId : String) :
    World × WorldReferences × Nat :=
  let t := getOrCreateBody soldierBodyDesc w refs.soldier soldierId
  (t.1, { refs with soldier := t.2.1 }, t.2.2)

/-! ## Input router (`applyInput`) -/

/-- One step of the `input.instructions.forEach` loop of `applyInput`:
a `moveUnit` instruction overwrites the referenced unit's position, and is
silently dropped when the unit id is not in the state. -/
def applyInstruction (st : GameState) (instruction : PlayerInstruction) : GameState :=
  match instruction with
  | .moveUnit unitId position =>
    match Table.lookup st.units unitId with
    | none => st
    | some u => { st with units := Table.set st.units unitId { u with position := position } }

/-- `applyInput(state, playerId, input)`: store the latest input, then apply
the queued instructions in order. -/
def applyInput (s : GameState) (playerId : String) (input : PlayerInput) : GameState :=
  let s1 := { s with inputs := Table.set s.inputs playerId input }
  input.instructions.foldl applyInstruction s1

/-! ## World sync, to physics (`syncToWorld`) -/

/-- The soldier AI direction of this `syncToWorld` variant:
`normalized(sub(unit.position, soldier.position)) ?? origo`. -/
def directionToUnit (unitPos soldierPos : Vec2) : Vec2 :=
  (normalized (unitPos.sub soldierPos)).getD origo

/-- The force application of the player loop: if the player has an input
record, add `movingDirection * (runForcePerKg * mass)`. -/
def playerForce (s : GameState) (w : World) (h : Nat) (e : String × Player) : World :=
  match Table.lookup s.inputs e.1 with
  | some input =>
    w.addForce h (input.movingDirection.scale (staticWorldConfig.soldier.runForcePerKg * w.massOf h))
  | none => w

/-- The force application of the soldier loop: if the owning unit exists,
add the follow force; otherwise the soldier is skipped for this tick. -/
def soldierForce (s : GameState) (w : World) (h : Nat) (e : String × Soldier) : World :=
  match Table.lookup s.units e.2.unitId with
  | some unit =>
    w.addForce h
      ((directionToUnit unit.position e.2.position).scale
        (staticWorldConfig.soldier.walkForcePerKg * w.massOf h))
  | none => w

/-- Common shape of one iteration of the two creation/update loops of
`syncToWorld`, at the level of one category table: get-or-create the body,
force-set its translation from the logical position, clear forces, then
apply the category's force. -/
def syncBodyStep {α : Type} (desc : Body) (posOf : α → Vec2)
    (force : World → Nat → (String × α) → World)
    (acc : World × Table String Nat) (e : String × α) : World × Table String Nat :=
  let t := getOrCreateBody desc acc.1 acc.2 e.1
  let w1 := t.1.setTranslation t.2.2 (posOf e.2)
  let w2 := w1.resetForces t.2.2
  let w3 := force w2 t.2.2 e
  (w3, t.2.1)

/-- One iteration of the first (`state.players`) loop of `syncToWorld`. -/
def playerSyncStep (s : GameState) (acc : World × WorldReferences) (e : String × Player) :
    World × WorldReferences :=
  let t := getOrCreatePlayer acc.1 acc.2 e.1
  let w1 := t.1.setTranslation t.2.2 e.2.position
  let w2 := w1.resetForces t.2.2
  let w3 := playerForce s w2 t.2.2 e
  (w3, t.2.1)

/-- One iteration of the second (`state.soldiers`) loop of `syncToWorld`. -/
def soldierSyncStep (s : GameState) (acc : World × WorldReferences) (e : String × Soldier) :
    World × WorldReferences :=
  let t := getOrCreateSoldier acc.1 acc.2 e.1
  let w1 := t.1.setTranslation t.2.2 e.2.position
  let w2 := w1.resetForces t.2.2
  let w3 := soldierForce s w2 t.2.2 e
  (w3, t.2.1)

/-- One iteration of the third loop of `syncToWorld` (reconciliation of
player bodies): a mapping entry whose id is no longer in `state.players`
has its body removed from the world and its entry deleted. -/
def reconcilePlayerStep (s : GameState) (acc : World × WorldReferences) (e : String × Nat) :
    World × WorldReferences :=
  if Table.contains s.players e.1 then acc
  else
    let w1 :=
      match acc.1.getRigidBody e.2 with
      | some _ => acc.1.removeRigidBody e.2
      | none => acc.1
    (w1, { acc.2 with player := Table.erase acc.2.player e.1 })

/-- One iteration of the fourth loop of `syncToWorld` (reconciliation of
soldier bodies). -/
def reconcileSoldierStep (s : GameState) (acc : World × WorldReferences) (e : String × Nat) :
    World × WorldReferences :=
  if Table.contains s.soldiers e.1 then acc
  else
    let w1 :=
      match acc.1.getRigidBody e.2 with
      | some _ => acc.1.removeRigidBody e.2
      | none => acc.1
    (w1, { acc.2 with soldier := Table.erase acc.2.soldier e.1 })

/-- `syncToWorld(world, state, worldReferences)`: push every player and
soldier into the physics world, then reconcile both reference tables
against the live id sets.  The `Map.forEach` loops iterate the entry list
as it stands when the loop starts; each iteration only ever deletes its own
entry, so this matches JS `Map` iteration semantics. -/
def syncToWorld (w : World) (s : GameState) (refs : WorldReferences) :
    World × WorldReferences :=
  let a1 := s.players.foldl (playerSyncStep s) (w, refs)
  let a2 := s.soldiers.foldl (soldierSyncStep s) a1
  let a3 := a2.2.player.foldl (reconcilePlayerStep s) a2
  let a4 := a3.2.soldier.foldl (reconcileSoldierStep s) a3
  a4

/-! ## World sync, from physics (`syncFromWorld`) -/

/-- One iteration of the player copy loop of `syncFromWorld`. -/
def playerFromStep (w : World) (refs : WorldReferences) (s : GameState)
    (acc : Table String Player) (e : String × Player) : Table String Player :=
  match (Table.lookup refs.player e.1).bind w.getRigidBody with
  | some rb =>
    Table.set acc e.1 { e.2 with position := vector rb.translation.x rb.translation.y }
  | none =>
    match Table.lookup s.players e.1 with
    | some p => Table.set acc e.1 p
    | none => acc

/-- One iteration of the soldier copy loop of `syncFromWorld`. -/
def soldierFromStep (w : World) (refs : WorldReferences) (s : GameState)
    (acc : Table String Soldier) (e : String × Soldier) : Table String Soldier :=
  match (Table.lookup refs.soldier e.1).bind w.getRigidBody with
  | some rb =>
    Table.set acc e.1 { e.2 with position := vector rb.translation.x rb.translation.y }
  | none =>
    match Table.lookup s.soldiers e.1 with
    | some sol => Table.set acc e.1 sol
    | none => acc

/-- `syncFromWorld(world, worldReferences, currentState)`: a copy-on-write
snapshot whose player and soldier positions are read back from the physics
world (falling back to the prior position when no body resolves).  Units
and inputs are carried over from the spread of `currentState`. -/
def syncFromWorld (w : World) (refs : WorldReferences) (s : GameState) : GameState :=
  { s with
    players := s.players.foldl (playerFromStep w refs s) []
    soldiers := s.soldiers.foldl (soldierFromStep w refs s) [] }

/-- `simulate(currentState, world, worldReferences)`; `world.step()` is the
opaque external engine, passed as `stepF`. -/
def simulate (stepF : World → World) (s : GameState) (w : World) (refs : WorldReferences) :
    GameState :=
  let a := syncToWorld w s refs
  let w2 := stepF a.1
  syncFromWorld w2 a.2 s

/-! ## Seeded pseudo-random integers (`src/utils/seededRandom.ts`) -/

/-- `2^32`, the modulus of the JS `>>> 0` unsigned 32-bit coercions. -/
def two32 : Nat := 4294967296

/-- `fnv1aHash(str)`: FNV-1a over the code units of the seed, kept in
`[0, 2^32)` by reducing after each `Math.imul`.  (`charCodeAt` is modelled
by `Char.toNat`; they agree on all non-astral characters.) -/
def fnv1aHash (s : String) : Nat :=
  s.data.foldl (fun h c => ((h ^^^ c.toNat) * 16777619) % two32) 2166136261

/-- `xorshift32(state)`: the shifts `<< 13`, `>>> 17`, `<< 5` with `>>> 0`
reductions become multiplication/division by powers of two mod `2^32`. -/
def xorshift32 (state : Nat) : Nat :=
  let x0 := state % two32
  let x1 := x0 ^^^ (x0 * 8192) % two32
  let x2 := x1 ^^^ x1 / 131072
  let x3 := x2 ^^^ (x2 * 32) % two32
  x3

/-- `seededRandomInt(seed, min, max)`.  The source throws a `RangeError`
when `min > max`, modelled as `none`.  The JS mapping
`Math.floor((rand32 / 0x100000000) * (range + 1)) + min` is computed in
doubles; for `rand32 < 2^32` and `range + 1 ≤ 2^21` every intermediate
double is exact, so it equals the integer `rand32 * (range + 1) / 2^32 + min`
used here (the game only calls it with `range = 21`). -/
def seededRandomInt (seed : String) (min max : Nat) : Option Nat :=
  if min > max then none
  else
    let h := fnv1aHash seed
    let state0 := if h = 0 then 3735928559 else h
    let s1 := xorshift32 state0
    let s2 := xorshift32 (s1 + 1)
    let s3 := xorshift32 (s2 + 2)
    let rand32 := xorshift32 s3
    let range := max - min
    if range = 0 then some min
    else some (rand32 * (range + 1) / two32 + min)

/-! ## Colors (`src/randomColor.ts`) -/

/-- The fixed named palette. -/
def palette : Table String String :=
  [("crimson", "#DC143C"), ("red", "#FF0000"), ("orange", "#FFA500"),
   ("amber", "#FFBF00"), ("gold", "#FFD700"), ("yellow", "#FFFF00"),
   ("lime", "#00FF00"), ("chartreuse", "#7FFF00"), ("green", "#008000"),
   ("teal", "#008080"), ("cyan", "#00FFFF"), ("azure", "#007FFF"),
   ("blue", "#0000FF"), ("indigo", "#4B0082"), ("violet", "#8F00FF"),
   ("purple", "#800080"), ("magenta", "#FF00FF"), ("pink", "#FFC0CB"),
   ("coral", "#FF7F50"), ("salmon", "#FA8072"), ("brown", "#A52A2A"),
   ("sienna", "#A0522D")]

/-- `pseudoRandomColor(seed)`: a seeded index into the palette entries.
The source's non-null assertion `entries[randomIndex]!` is modelled by a
junk default. -/
def pseudoRandomColor (seed : String) : String :=
  let entries := palette
  let colorCount := entries.length
  match seededRandomInt seed 0 (colorCount - 1) with
  | some randomIndex =>
    match entries.get? randomIndex with
    | some e => e.2
    | none => ""
  | none => ""

/-! ## Entity factory (`Game.tsx`, reconstructed file `part_002`) -/

/-- `uuid()` modelled as a fresh-name generator: the source draws v4 UUIDs,
whose contract (fresh, unique names) the counter realizes. -/
def uuid (n : Nat) : String := "uuid-" ++ toString n

/-- The empty aggregate built at the top of `createInitialState`. -/
def initialGameState : GameState :=
  { players := [], inputs := [], soldiers := [], units := [] }

/-- `spawnSolider(state, unitId, position)` (sic), threading the uuid
counter. -/
def spawnSolider (sn : GameState × Nat) (unitId : String) (position : Vec2) :
    GameState × Nat :=
  let soldier : Soldier := { position := position, unitId := unitId }
  let soldierId := uuid sn.2
  ({ sn.1 with soldiers := Table.set sn.1.soldiers soldierId soldier }, sn.2 + 1)

/-- `createUnitCompositions(state, playerId, position)`: one unit plus its
20 soldiers in a row, offset by twice the soldier radius. -/
def createUnitCompositions (sn : GameState × Nat) (playerId : String) (position : Vec2) :
    GameState × Nat :=
  let soldierCount : Nat := 20
  let unit : GameUnit := { position := position, playerId := playerId }
  let unitId := uuid sn.2
  let sn1 := ({ sn.1 with units := Table.set sn.1.units unitId unit }, sn.2 + 1)
  (List.range soldierCount).foldl
    (fun acc (i : Nat) =>
      let soldierPos :=
        unit.position.add
          (vector (((i : ℝ) - (soldierCount : ℝ) / 2) * staticWorldConfig.soldier.radius * 2) 0)
      spawnSolider acc unitId soldierPos)
    sn1

/-- `createArmy(state, playerId, position)`: 3 units spread 400 apart. -/
def createArmy (sn : GameState × Nat) (playerId : String) (position : Vec2) :
    GameState × Nat :=
  let unitCount : Nat := 3
  let unitDistance : ℝ := 400
  (List.range unitCount).foldl
    (fun acc (i : Nat) =>
      let unitPos := position.add (vector (((i : ℝ) - (unitCount : ℝ) / 2) * unitDistance) 0)
      createUnitCompositions acc playerId unitPos)
    sn

/-- `handlePlayerJoin(state, playerId)`: no-op when the id already has a
player; otherwise spawn position `(0, index * 300)` with
`index = Object.keys(state.players).length`, a deterministic color, and an
army. -/
def handlePlayerJoin (sn : GameState × Nat) (playerId : String) : GameState × Nat :=
  if Table.contains sn.1.players playerId then sn
  else
    let playerIndex := (Table.keys sn.1.players).length
    let playerSpawnPos := vector 0 ((playerIndex : ℝ) * 300)
    let player : Player := { position := playerSpawnPos, color := pseudoRandomColor playerId }
    let sn1 := createArmy sn playerId playerSpawnPos
    ({ sn1.1 with players := Table.set sn1.1.players playerId player }, sn1.2)

/-- `handlePlayerLeave(state, playerId)`: drop the player entry and its
input record, nothing else. -/
def handlePlayerLeave (s : GameState) (playerId : String) : GameState :=
  { s with
    players := Table.erase s.players playerId
    inputs := Table.erase s.inputs playerId }

/-- `createInitialState(playerIds)`: join every id into the empty state. -/
def createInitialState (playerIds : List String) : GameState × Nat :=
  playerIds.foldl (fun sn id => handlePlayerJoin sn id) (initialGameState, 0)

/-! ## Soldier avoidance AI (`updateSoldier`, reconstructed file
`part_001`, lines 798-856) -/

/-- `avoidanceDist = staticWorldConfig.soldier.radius * 2 * 1.5`. -/
def avoidanceDist : ℝ := staticWorldConfig.soldier.radius * 2 * 1.5

/-- `avoidanceRadiusSquared = avoidanceDist * avoidanceDist`. -/
def avoidanceRadiusSquared : ℝ := avoidanceDist * avoidanceDist

/-- Accumulator of the `intersectionsWithShape` callback of
`updateSoldier`: `closestDistanceSquared` starts at `Infinity` (modelled as
`none`) and `avoidanceDirection` at `origo`. -/
structure AvoidScan where
  closestDistanceSquared : Option ℝ
  avoidanceDirection : Vec2

/-- One callback invocation of the proximity query of `updateSoldier`, for
a neighbor body at `otherPos` (the engine already excludes the soldier's
own body via the handle check). -/
def scanStep (soldierPos : Vec2) (acc : AvoidScan) (otherPos : Vec2) : AvoidScan :=
  let diff := soldierPos.sub otherPos
  let distanceSquared := lengthSquared diff
  match acc.closestDistanceSquared with
  | none =>
    { closestDistanceSquared := some distanceSquared
      avoidanceDirection := (normalized diff).getD origo }
  | some c =>
    if distanceSquared < c then
      { closestDistanceSquared := some distanceSquared
        avoidanceDirection := (normalized diff).getD origo }
    else acc

/-- The full neighbor scan of `updateSoldier` over the candidate neighbor
positions returned by the broad-phase query. -/
def soldierScan (soldierPos : Vec2) (others : List Vec2) : AvoidScan :=
  others.foldl (scanStep soldierPos) { closestDistanceSquared := none, avoidanceDirection := origo }

/-- The steering direction computed by `updateSoldier` (reconstructed file
`part_001`): `none` when the owning unit is gone (the soldier is skipped),
otherwise the blend of target direction and avoidance direction under the
binary avoidance weight, renormalized with fallback to the target
direction.  `others` are the neighbor body positions produced by
`world.intersectionsWithShape`. -/
def updateSoldierDirection (s : GameState) (soldier : Soldier) (others : List Vec2) :
    Option Vec2 :=
  match Table.lookup s.units soldier.unitId with
  | none => none
  | some unit =>
    let scan := soldierScan soldier.position others
    let directionToTarget := (normalized (unit.position.sub soldier.position)).getD origo
    let avoidanceWeight : ℝ :=
      match scan.closestDistanceSquared with
      | some c => if c < avoidanceRadiusSquared then 1 else 0
      | none => 0
    some
      ((normalized
          ((directionToTarget.scale (1 - avoidanceWeight)).add
            (scan.avoidanceDirection.scale avoidanceWeight))).getD
        directionToTarget)

/-- The force-application parameter of a sync loop touches only the force
field of the body at the given handle. -/
def ForceOnly (h : Nat) (w w2 : World) : Prop :=
  w2.nextHandle = w.nextHandle ∧
  Table.keys w2.bodies = Table.keys w.bodies ∧
  (∀ h2, h2 ≠ h → w2.getRigidBody h2 = w.getRigidBody h2) ∧
  ((w2.getRigidBody h).map (fun b => { b with force := origo }) =
    (w.getRigidBody h).map (fun b => { b with force := origo }))

/-! ## Wellformedness predicates (the documented invariants of the world
and the reference table) -/

/-- The world invariant Rapier's arena maintains: every live handle was
issued (is below the fresh-handle counter) and handles key at most one
body. -/
structure WorldWF (w : World) : Prop where
  bounded : ∀ h b, Table.lookup w.bodies h = some b → h < w.nextHandle
  nodupKeys : (Table.keys w.bodies).Nodup

/-- The Reference Table invariant from the spec: handles were issued by the
world, each `Map` has JS key semantics (no duplicate keys), and every live
handle is owned by at most one logical entity, across both categories. -/
structure RefsWF (w : World) (refs : WorldReferences) : Prop where
  playerNodup : (Table.keys refs.player).Nodup
  soldierNodup : (Table.keys refs.soldier).Nodup
  playerBounded : ∀ pid h, Table.lookup refs.player pid = some h → h < w.nextHandle
  soldierBounded : ∀ sid h, Table.lookup refs.soldier sid = some h → h < w.nextHandle
  playerInj : ∀ p1 p2 h, Table.lookup refs.player p1 = some h →
    Table.lookup refs.player p2 = some h → liveAt w h → p1 = p2
  soldierInj : ∀ s1 s2 h, Table.lookup refs.soldier s1 = some h →
    Table.lookup refs.soldier s2 = some h → liveAt w h → s1 = s2
  cross : ∀ pid sid h, Table.lookup refs.player pid = some h →
    Table.lookup refs.soldier sid = some h → ¬ liveAt w h

/-- JS objects cannot carry duplicate keys: the state mappings the claims
quantify over. -/
structure StateWF (s : GameState) : Prop where
  playersNodup : (Table.keys s.players).Nodup
  soldiersNodup : (Table.keys s.soldiers).Nodup

/-! ## Spec vocabulary for the claims -/

/-- C1: the round-trip `syncFromWorld ∘ syncToWorld` (no physics step in
between) preserves every player and soldier position. -/
def RoundTrips (s : GameState) (w : World) (refs : WorldReferences) : Prop :=
  (∀ pid, (Table.lookup (syncFromWorld (syncToWorld w s refs).1 (syncToWorld w s refs).2 s).players pid).map
      Player.position = (Table.lookup s.players pid).map Player.position) ∧
  (∀ sid, (Table.lookup (syncFromWorld (syncToWorld w s refs).1 (syncToWorld w s refs).2 s).soldiers sid).map
      Soldier.position = (Table.lookup s.soldiers sid).map Soldier.position)

/-- C4 vocabulary: the position carried by the last `moveUnit` instruction
for `unitId`, if any. -/
def lastMoveFrom : List PlayerInstruction → String → Option Vec2
  | [], _ => none
  | .moveUnit u p :: rest, uid =>
    match lastMoveFrom rest uid with
    | some q => some q
    | none => if u = uid then some p else none

/-- C10: every soldier's `unitId` resolves in the units mapping. -/
def SoldiersLinked (s : GameState) : Prop :=
  ∀ sid sol, Table.lookup s.soldiers sid = some sol →
    (Table.lookup s.units sol.unitId).isSome = true

/-- Entry-wise version of `SoldiersLinked` (robust even under duplicate
keys), used for the induction. -/
def SoldiersLinkedMem (s : GameState) : Prop :=
  ∀ e ∈ s.soldiers, (Table.lookup s.units (Soldier.unitId e.2)).isSome = true

/-- One factory step from `a` to `b` only grows the units mapping and adds
soldiers that are linked in `b`. -/
def GrowLinked (a b : GameState × Nat) : Prop :=
  (∀ k, (Table.lookup a.1.units k).isSome = true →
    (Table.lookup b.1.units k).isSome = true) ∧
  (∀ e, e ∈ b.1.soldiers → e ∈ a.1.soldiers ∨
    (Table.lookup b.1.units (Soldier.unitId e.2)).isSome = true)

/-- States (with their uuid counter) reachable through the core operations
named by C10. -/
inductive Reach : GameState × Nat → Prop where
  | init (playerIds : List String) : Reach (createInitialState playerIds)
  | join (sn : GameState × Nat) (pid : String) : Reach sn → Reach (handlePlayerJoin sn pid)
  | leave (sn : GameState × Nat) (pid : String) : Reach sn →
      Reach (handlePlayerLeave sn.1 pid, sn.2)
  | input (sn : GameState × Nat) (pid : String) (inp : PlayerInput) : Reach sn →
      Reach (applyInput sn.1 pid inp, sn.2)
  | fromWorld (sn : GameState × Nat) (w : World) (refs : WorldReferences) : Reach sn →
      Reach (syncFromWorld w refs sn.1, sn.2)

/-- States reachable by `createInitialState` and joins only (no leaves);
`createInitialState []` is the empty aggregate, so this is the base. -/
inductive ReachJoin : GameState × Nat → Prop where
  | init : ReachJoin (initialGameState, 0)
  | join (sn : GameState × Nat) (pid : String) : ReachJoin sn → ReachJoin (handlePlayerJoin sn pid)

/-- C9 (amended) vocabulary: all player positions pairwise distinct. -/
def SpawnsDistinct (s : GameState) : Prop :=
  ∀ p q pl ql, p ≠ q → Table.lookup s.players p = some pl →
    Table.lookup s.players q = some ql → pl.position ≠ ql.position

/-! ## Fold-step normal forms used in proofs -/

/-- Value stored by one iteration of the player copy loop of
`syncFromWorld`, or `none` when the loop leaves the accumulator
untouched. -/
def playerFromValue (w : World) (refs : WorldReferences) (s : GameState)
    (e : String × Player) : Option Player :=
  match (Table.lookup refs.player e.1).bind w.getRigidBody with
  | some rb => some { e.2 with position := vector rb.translation.x rb.translation.y }
  | none => Table.lookup s.players e.1

/-- Value stored by one iteration of the soldier copy loop of
`syncFromWorld`, or `none` when the loop leaves the accumulator
untouched. -/
def soldierFromValue (w : World) (refs : WorldReferences) (s : GameState)
    (e : String × Soldier) : Option Soldier :=
  match (Table.lookup refs.soldier e.1).bind w.getRigidBody with
  | some rb => some { e.2 with position := vector rb.translation.x rb.translation.y }
  | none => Table.lookup s.soldiers e.1

/-- Normal form of a copy-loop iteration: store `φ e` at the entry's key,
or keep the accumulator. -/
def buildStep {α : Type} (φ : (String × α) → Option α)
    (acc : Table String α) (e : String × α) : Table String α :=
  match φ e with
  | some v => Table.set acc e.1 v
  | none => acc

/-! ## Placement predicates for the `syncToWorld` loops (C1, C2) -/

/-- The reference table maps the player id to a handle whose body carries
exactly the given position. -/
def PlayerPlaced (a : World × WorldReferences) (pid : String) (pos : Vec2) : Prop :=
  ∃ h b, Table.lookup a.2.player pid = some h ∧ a.1.getRigidBody h = some b ∧
    b.translation = pos

/-- The reference table maps the soldier id to a handle whose body carries
exactly the given position. -/
def SoldierPlaced (a : World × WorldReferences) (sid : String) (pos : Vec2) : Prop :=
  ∃ h b, Table.lookup a.2.soldier sid = some h ∧ a.1.getRigidBody h = some b ∧
    b.translation = pos

/-- The world after the translation/force writes of one sync-loop iteration:
only the body at `h` changed, and its translation is now `pos`. -/
def WroteAt (h : Nat) (pos : Vec2) (w w2 : World) : Prop :=
  w2.nextHandle = w.nextHandle ∧
  (∀ h2, h2 ≠ h → w2.getRigidBody h2 = w.getRigidBody h2) ∧
  (∃ b, w2.getRigidBody h = some b ∧ b.translation = pos)

/-! ## Concrete inputs used by the witnesses and counterexamples -/

/-- A sample player. -/
def pEx : Player := { position := vector 1 2, color := "red" }

def uEx : GameUnit := { position := vector 3 4, playerId := "p1" }

def solEx : Soldier := { position := vector 5 6, unitId := "u1" }

def inpEx : PlayerInput :=
  { movingDirection := vector 1 0, instructions := [], selectedUnitId := none }

/-- A small sample state: one player, one unit, one soldier. -/
def sEx : GameState :=
  { players := [("p1", pEx)]
    inputs := [("p1", inpEx)]
    soldiers := [("s1", solEx)]
    units := [("u1", uEx)] }

/-- A world holding one body at handle 0. -/
def wEx2 : World := { nextHandle := 1, bodies := [(0, playerBodyDesc)] }

/-- References mapping a departed player id to handle 0. -/
def refsEx2 : WorldReferences := { player := [("gone", 0)], soldier := [] }

/-- C3 counterexample state: a unit at `(100, 0)` owned by `p1`. -/
def sC3 : GameState :=
  { players := [], inputs := [], soldiers := []
    units := [("u1", { position := vector 100 0, playerId := "p1" })] }

/-- C3 soldier at the origin, owned by `u1`. -/
def solC3 : Soldier := { position := vector 0 0, unitId := "u1" }

/-- C9 counterexample, step 1: three participants join. -/
def s9a : GameState × Nat := createInitialState ["a", "b", "c"]

/-- C9 counterexample, step 2: participant "b" leaves. -/
def s9b : GameState := handlePlayerLeave s9a.1 "b"

/-- C9 counterexample, step 3: participant "d" joins the 2-player state. -/
def s9c : GameState × Nat := handlePlayerJoin (s9b, s9a.2) "d"

/-! # Lemmas and theorems

## Table lemmas -/

theorem Table.lookup_set_self {κ α : Type} [DecidableEq κ] (t : Table κ α) (k : κ) (v : α) :
    Table.lookup (Table.set t k v) k = some v := by
  induction t with
  | nil => simp [Table.set, Table.lookup]
  | cons e rest ih =>
    by_cases h : e.1 = k
    · simp [Table.set, h, Table.lookup]
    · simp [Table.set, h, Table.lookup, ih]

theorem Table.lookup_set_ne {κ α : Type} [DecidableEq κ] (t : Table κ α) {k k' : κ} (v : α)
    (hne : k' ≠ k) : Table.lookup (Table.set t k v) k' = Table.lookup t k' := by
  have h1 : ¬ k = k' := fun h => hne h.symm
  induction t with
  | nil => simp [Table.set, Table.lookup, h1]
  | cons e rest ih =>
    by_cases h : e.1 = k
    · subst h
      simp [Table.set, Table.lookup, h1]
    · simp only [Table.set, h, if_false, Table.lookup]
      by_cases h2 : e.1 = k'
      · simp [h2]
      · simp [h2, ih]

theorem Table.lookup_erase_self {κ α : Type} [DecidableEq κ] (t : Table κ α) (k : κ) :
    Table.lookup (Table.erase t k) k = none := by
  induction t with
  | nil => rfl
  | cons e rest ih =>
    by_cases h : e.1 = k
    · simpa [Table.erase, h] using ih
    · simpa [Table.erase, h, Table.lookup] using ih

theorem Table.lookup_erase_ne {κ α : Type} [DecidableEq κ] (t : Table κ α) {k k' : κ}
    (hne : k' ≠ k) : Table.lookup (Table.erase t k) k' = Table.lookup t k' := by
  induction t with
  | nil => rfl
  | cons e rest ih =>
    by_cases h : e.1 = k
    · subst h
      have h1 : ¬ e.1 = k' := fun h2 => hne h2.symm
      simpa [Table.erase, Table.lookup, h1] using ih
    · by_cases h2 : e.1 = k'
      · have h3 : ¬ k' = k := fun hh => h (h2.symm ▸ hh)
        simp [Table.erase, h2, h3, Table.lookup]
      · simpa [Table.erase, h, Table.lookup, h2] using ih

theorem Table.lookup_mem {κ α : Type} [DecidableEq κ] {t : Table κ α} {k : κ} {v : α}
    (h : Table.lookup t k = some v) : (k, v) ∈ t := by
  induction t with
  | nil => simp [Table.lookup] at h
  | cons e rest ih =>
    by_cases he : e.1 = k
    · simp only [Table.lookup, he, if_true, Option.some.injEq] at h
      subst he h
      exact List.mem_cons_self _ _
    · simp only [Table.lookup, he, if_false] at h
      exact List.mem_cons_of_mem _ (ih h)

theorem Table.mem_keys_of_mem {κ α : Type} {t : Table κ α} {e : κ × α} (h : e ∈ t) :
    e.1 ∈ Table.keys t :=
  List.mem_map_of_mem Prod.fst h

theorem Table.mem_lookup {κ α : Type} [DecidableEq κ] {t : Table κ α} {k : κ} {v : α}
    (hnd : (Table.keys t).Nodup) (h : (k, v) ∈ t) : Table.lookup t k = some v := by
  induction t with
  | nil => simp at h
  | cons e rest ih =>
    simp only [Table.keys, List.map_cons, List.nodup_cons] at hnd
    rcases List.mem_cons.mp h with h1 | h1
    · subst h1
      simp [Table.lookup]
    · have hk : ¬ e.1 = k := by
        intro he
        exact hnd.1 (he ▸ Table.mem_keys_of_mem h1)
      simpa [Table.lookup, hk] using ih hnd.2 h1

theorem Table.lookup_eq_none {κ α : Type} [DecidableEq κ] {t : Table κ α} {k : κ}
    (h : k ∉ Table.keys t) : Table.lookup t k = none := by
  induction t with
  | nil => rfl
  | cons e rest ih =>
    simp only [Table.keys, List.map_cons, List.mem_cons] at h
    push_neg at h
    have h1 : ¬ e.1 = k := fun he => h.1 he.symm
    simpa [Table.lookup, h1] using ih h.2

theorem Table.mem_keys_of_lookup {κ α : Type} [DecidableEq κ] {t : Table κ α} {k : κ} {v : α}
    (h : Table.lookup t k = some v) : k ∈ Table.keys t :=
  Table.mem_keys_of_mem (Table.lookup_mem h)

theorem Table.mem_set {κ α : Type} [DecidableEq κ] {t : Table κ α} {k : κ} {v : α}
    {e : κ × α} (h : e ∈ Table.set t k v) : e ∈ t ∨ e = (k, v) := by
  induction t with
  | nil => simp [Table.set] at h; exact Or.inr h
  | cons e0 rest ih =>
    by_cases he : e0.1 = k
    · simp only [Table.set, he, if_true, List.mem_cons] at h
      rcases h with h | h
      · exact Or.inr h
      · exact Or.inl (List.mem_cons_of_mem _ h)
    · simp only [Table.set, he, if_false, List.mem_cons] at h
      rcases h with h | h
      · exact Or.inl (h ▸ List.mem_cons_self _ _)
      · rcases ih h with h2 | h2
        · exact Or.inl (List.mem_cons_of_mem _ h2)
        · exact Or.inr h2

theorem Table.mem_erase {κ α : Type} [DecidableEq κ] {t : Table κ α} {k : κ} {e : κ × α}
    (h : e ∈ Table.erase t k) : e ∈ t := by
  induction t with
  | nil => simp [Table.erase] at h
  | cons e0 rest ih =>
    by_cases he : e0.1 = k
    · simp only [Table.erase, he, if_true] at h
      exact List.mem_cons_of_mem _ (ih h)
    · simp only [Table.erase, he, if_false, List.mem_cons] at h
      rcases h with h | h
      · exact h ▸ List.mem_cons_self _ _
      · exact List.mem_cons_of_mem _ (ih h)

theorem Table.mem_keys_erase {κ α : Type} [DecidableEq κ] {t : Table κ α} {k k' : κ}
    (h : k' ∈ Table.keys (Table.erase t k)) : k' ∈ Table.keys t := by
  simp only [Table.keys, List.mem_map] at h ⊢
  rcases h with ⟨e, he, rfl⟩
  exact ⟨e, Table.mem_erase he, rfl⟩

theorem Table.keys_set {κ α : Type} [DecidableEq κ] (t : Table κ α) (k : κ) (v : α) :
    Table.keys (Table.set t k v) =
      if k ∈ Table.keys t then Table.keys t else Table.keys t ++ [k] := by
  induction t with
  | nil => simp [Table.set, Table.keys]
  | cons e rest ih =>
    by_cases he : e.1 = k
    · simp [Table.set, he, Table.keys]
    · have h1 : ¬ k = e.1 := fun h => he h.symm
      have ih2 : List.map Prod.fst (Table.set rest k v) =
          if k ∈ List.map Prod.fst rest then List.map Prod.fst rest
          else List.map Prod.fst rest ++ [k] := by
        simpa [Table.keys] using ih
      by_cases hm : k ∈ List.map Prod.fst rest
      · simp [Table.set, he, Table.keys, List.mem_cons, h1, hm, ih2]
      · simp [Table.set, he, Table.keys, List.mem_cons, h1, hm, ih2]

theorem Table.keys_set_nodup {κ α : Type} [DecidableEq κ] {t : Table κ α} (k : κ) (v : α)
    (h : (Table.keys t).Nodup) : (Table.keys (Table.set t k v)).Nodup := by
  rw [Table.keys_set]
  by_cases hm : k ∈ Table.keys t
  · simpa [hm] using h
  · simp only [hm, if_false]
    simp [List.nodup_append, h, hm]

theorem Table.keys_erase_nodup {κ α : Type} [DecidableEq κ] {t : Table κ α} (k : κ)
    (h : (Table.keys t).Nodup) : (Table.keys (Table.erase t k)).Nodup := by
  induction t with
  | nil => simpa [Table.erase] using h
  | cons e rest ih =>
    simp only [Table.keys, List.map_cons, List.nodup_cons] at h
    by_cases he : e.1 = k
    · simpa [Table.erase, he] using ih h.2
    · simp only [Table.erase, he, if_false, Table.keys, List.map_cons, List.nodup_cons]
      refine ⟨fun hmem => h.1 (Table.mem_keys_erase (by simpa [Table.keys] using hmem)), ?_⟩
      simpa [Table.keys] using ih h.2

theorem Table.lookup_append_left {κ α : Type} [DecidableEq κ] {t u : Table κ α} {k : κ} {v : α}
    (h : Table.lookup t k = some v) : Table.lookup (t ++ u) k = some v := by
  induction t with
  | nil => simp [Table.lookup] at h
  | cons e rest ih =>
    by_cases he : e.1 = k
    · simp only [Table.lookup, he, if_true, Option.some.injEq] at h
      simp [Table.lookup, he, h]
    · simp only [Table.lookup, he, if_false] at h
      simpa [Table.lookup, he] using ih h

theorem Table.lookup_append_right {κ α : Type} [DecidableEq κ] {t : Table κ α} (u : Table κ α)
    {k : κ} (h : Table.lookup t k = none) : Table.lookup (t ++ u) k = Table.lookup u k := by
  induction t with
  | nil => simp
  | cons e rest ih =>
    by_cases he : e.1 = k
    · simp [Table.lookup, he] at h
    · simp only [Table.lookup, he, if_false] at h
      simpa [Table.lookup, he] using ih h

theorem Table.lookup_modify_self {κ α : Type} [DecidableEq κ] (t : Table κ α) (k : κ)
    (f : α → α) : Table.lookup (Table.modify t k f) k = (Table.lookup t k).map f := by
  induction t with
  | nil => simp [Table.modify, Table.lookup]
  | cons e rest ih =>
    by_cases he : e.1 = k
    · simp [Table.modify, he, Table.lookup]
    · simp [Table.modify, he, Table.lookup, ih]

theorem Table.lookup_modify_ne {κ α : Type} [DecidableEq κ] (t : Table κ α) {k k' : κ}
    (f : α → α) (hne : k' ≠ k) :
    Table.lookup (Table.modify t k f) k' = Table.lookup t k' := by
  induction t with
  | nil => simp [Table.modify]
  | cons e rest ih =>
    by_cases he : e.1 = k
    · subst he
      have h1 : ¬ e.1 = k' := fun h2 => hne h2.symm
      simp [Table.modify, Table.lookup, h1]
    · by_cases h2 : e.1 = k'
      · have h3 : ¬ k' = k := fun hh => he (h2.symm ▸ hh)
        simp [Table.modify, h2, h3, Table.lookup]
      · simp [Table.modify, he, Table.lookup, h2, ih]

theorem Table.keys_modify {κ α : Type} [DecidableEq κ] (t : Table κ α) (k : κ) (f : α → α) :
    Table.keys (Table.modify t k f) = Table.keys t := by
  induction t with
  | nil => rfl
  | cons e rest ih =>
    have ih2 : List.map Prod.fst (Table.modify rest k f) = List.map Prod.fst rest := by
      simpa [Table.keys] using ih
    by_cases he : e.1 = k
    · simp [Table.modify, he, Table.keys]
    · simp [Table.modify, he, Table.keys, ih2]

theorem Table.exists_lookup_of_mem_keys {κ α : Type} [DecidableEq κ] {t : Table κ α} {k : κ}
    (h : k ∈ Table.keys t) : ∃ v, Table.lookup t k = some v := by
  induction t with
  | nil => simp [Table.keys] at h
  | cons e rest ih =>
    by_cases he : e.1 = k
    · exact ⟨e.2, by simp [Table.lookup, he]⟩
    · simp only [Table.keys, List.map_cons, List.mem_cons] at h
      rcases h with h | h
      · exact absurd h.symm he
      · simpa [Table.lookup, he] using ih h

theorem Table.contains_iff {κ α : Type} [DecidableEq κ] {t : Table κ α} {k : κ} :
    Table.contains t k = true ↔ k ∈ Table.keys t := by
  constructor
  · intro h
    simp only [Table.contains, Option.isSome_iff_exists] at h
    rcases h with ⟨v, hv⟩
    exact Table.mem_keys_of_lookup hv
  · intro h
    rcases Table.exists_lookup_of_mem_keys h with ⟨v, hv⟩
    simp [Table.contains, hv]

theorem Table.contains_false_iff {κ α : Type} [DecidableEq κ] {t : Table κ α} {k : κ} :
    Table.contains t k = false ↔ k ∉ Table.keys t := by
  rw [← Table.contains_iff]
  cases Table.contains t k <;> simp

/-! ## Generic fold invariance -/

theorem foldl_preserves {β γ : Type} {step : β → γ → β} {P : β → Prop}
    (hstep : ∀ b c, P b → P (step b c)) :
    ∀ (l : List γ) {b : β}, P b → P (l.foldl step b) := by
  intro l
  induction l with
  | nil => intro b h; exact h
  | cons c rest ih => intro b h; exact ih (hstep _ _ h)

/-! ## C4: the input router -/

theorem applyInstruction_players (st : GameState) (i : PlayerInstruction) :
    (applyInstruction st i).players = st.players := by
  cases i with
  | moveUnit uid p =>
    simp only [applyInstruction]
    cases Table.lookup st.units uid <;> rfl

theorem applyInstruction_soldiers (st : GameState) (i : PlayerInstruction) :
    (applyInstruction st i).soldiers = st.soldiers := by
  cases i with
  | moveUnit uid p =>
    simp only [applyInstruction]
    cases Table.lookup st.units uid <;> rfl

theorem applyInstruction_inputs (st : GameState) (i : PlayerInstruction) :
    (applyInstruction st i).inputs = st.inputs := by
  cases i with
  | moveUnit uid p =>
    simp only [applyInstruction]
    cases Table.lookup st.units uid <;> rfl

theorem foldl_applyInstruction_units (instrs : List PlayerInstruction) (st : GameState)
    (uid : String) :
    Table.lookup (instrs.foldl applyInstruction st).units uid =
      (Table.lookup st.units uid).map
        (fun u => { u with position := (lastMoveFrom instrs uid).getD u.position }) := by
  induction instrs generalizing st with
  | nil =>
    simp only [List.foldl_nil, lastMoveFrom, Option.getD_none]
    cases Table.lookup st.units uid <;> rfl
  | cons i rest ih =>
    cases i with
    | moveUnit v p =>
      simp only [List.foldl_cons]
      rw [ih]
      by_cases hv : v = uid
      · subst hv
        cases hu : Table.lookup st.units v with
        | none =>
          have h1 : applyInstruction st (.moveUnit v p) = st := by
            simp only [applyInstruction, hu]
          rw [h1, hu]
          simp
        | some u0 =>
          have h1 : (applyInstruction st (.moveUnit v p)).units =
              Table.set st.units v { u0 with position := p } := by
            simp only [applyInstruction, hu]
          rw [h1, Table.lookup_set_self]
          cases hr : lastMoveFrom rest v with
          | none => simp [lastMoveFrom, hr, hu]
          | some q => simp [lastMoveFrom, hr, hu]
      · have hunits : Table.lookup (applyInstruction st (.moveUnit v p)).units uid =
            Table.lookup st.units uid := by
          cases hu : Table.lookup st.units v with
          | none => simp only [applyInstruction, hu]
          | some u0 =>
            have h1 : (applyInstruction st (.moveUnit v p)).units =
                Table.set st.units v { u0 with position := p } := by
              simp only [applyInstruction, hu]
            rw [h1]
            exact Table.lookup_set_ne _ _ (fun h => hv h.symm)
        rw [hunits]
        have hlast : lastMoveFrom (.moveUnit v p :: rest) uid = lastMoveFrom rest uid := by
          simp only [lastMoveFrom]
          cases lastMoveFrom rest uid with
          | none => simp [hv]
          | some q => rfl
        rw [hlast]

/-- C4: `applyInput` stores the latest input; each queued `moveUnit`
instruction overwrites the referenced unit's position with exactly the
instructed coordinate when the unit exists (the last instruction for a
unit winning), and an instruction whose unit id is absent is silently
dropped — no error and no change to any mapping (in particular the result
for an absent unit id is still `none`, and players/soldiers are
untouched). -/
theorem applyInput_moveUnit_spec (s : GameState) (playerId : String) (input : PlayerInput) :
    (∀ uid, Table.lookup (applyInput s playerId input).units uid =
      (Table.lookup s.units uid).map
        (fun u => { u with position := (lastMoveFrom input.instructions uid).getD u.position })) ∧
    (applyInput s playerId input).players = s.players ∧
    (applyInput s playerId input).soldiers = s.soldiers ∧
    (applyInput s playerId input).inputs = Table.set s.inputs playerId input := by
  refine ⟨fun uid => ?_, ?_, ?_, ?_⟩
  · show Table.lookup (input.instructions.foldl applyInstruction
      { s with inputs := Table.set s.inputs playerId input }).units uid = _
    rw [foldl_applyInstruction_units]
  · show (input.instructions.foldl applyInstruction
      { s with inputs := Table.set s.inputs playerId input }).players = s.players
    exact foldl_preserves (P := fun st => st.players = s.players)
      (fun st i h => (applyInstruction_players st i).trans h) input.instructions
      (b := { s with inputs := Table.set s.inputs playerId input }) rfl
  · show (input.instructions.foldl applyInstruction
      { s with inputs := Table.set s.inputs playerId input }).soldiers = s.soldiers
    exact foldl_preserves (P := fun st => st.soldiers = s.soldiers)
      (fun st i h => (applyInstruction_soldiers st i).trans h) input.instructions
      (b := { s with inputs := Table.set s.inputs playerId input }) rfl
  · show (input.instructions.foldl applyInstruction
      { s with inputs := Table.set s.inputs playerId input }).inputs =
        Table.set s.inputs playerId input
    exact foldl_preserves (P := fun st => st.inputs = Table.set s.inputs playerId input)
      (fun st i h => (applyInstruction_inputs st i).trans h) input.instructions
      (b := { s with inputs := Table.set s.inputs playerId input }) rfl

/-! ## C8: peer leave -/

/-- C8: handling a leave removes exactly the participant's player entry
and input record; units, soldiers and every other participant's entries
are unchanged. -/
theorem handlePlayerLeave_spec (s : GameState) (pid : String) :
    (handlePlayerLeave s pid).units = s.units ∧
    (handlePlayerLeave s pid).soldiers = s.soldiers ∧
    Table.lookup (handlePlayerLeave s pid).players pid = none ∧
    Table.lookup (handlePlayerLeave s pid).inputs pid = none ∧
    (∀ q, q ≠ pid → Table.lookup (handlePlayerLeave s pid).players q = Table.lookup s.players q) ∧
    (∀ q, q ≠ pid → Table.lookup (handlePlayerLeave s pid).inputs q = Table.lookup s.inputs q) := by
  refine ⟨rfl, rfl, ?_, ?_, ?_, ?_⟩
  · exact Table.lookup_erase_self _ _
  · exact Table.lookup_erase_self _ _
  · intro q hq
    exact Table.lookup_erase_ne _ hq
  · intro q hq
    exact Table.lookup_erase_ne _ hq

/-- Witness for C8 at the sample state. -/
theorem handlePlayerLeave_spec_witness :
    ("p2" ≠ "p1") ∧
    Table.lookup (handlePlayerLeave sEx "p1").players "p1" = none ∧
    Table.lookup (handlePlayerLeave sEx "p1").players "p2" = Table.lookup sEx.players "p2" := by
  have h := handlePlayerLeave_spec sEx "p1"
  exact ⟨by decide, h.2.2.1, h.2.2.2.2.1 "p2" (by decide)⟩

/-! ## Norm lemmas -/

theorem norm2_eq_zero_iff (v : Vec2) : norm2 v = 0 ↔ v = origo := by
  constructor
  · intro h
    have hx : v.x * v.x + v.y * v.y ≤ 0 := Real.sqrt_eq_zero'.mp h
    have hx0 : v.x * v.x = 0 := by nlinarith [mul_self_nonneg v.x, mul_self_nonneg v.y]
    have hy0 : v.y * v.y = 0 := by nlinarith [mul_self_nonneg v.x, mul_self_nonneg v.y]
    have hvx : v.x = 0 := mul_self_eq_zero.mp hx0
    have hvy : v.y = 0 := mul_self_eq_zero.mp hy0
    cases v with
    | mk x y => simp only [origo, Vec2.mk.injEq]; exact ⟨hvx, hvy⟩
  · rintro rfl
    simp [norm2, origo]

theorem norm2_unit (v : Vec2) (h : norm2 v ≠ 0) : norm2 (v.div (norm2 v)) = 1 := by
  have hs : (0 : ℝ) ≤ v.x * v.x + v.y * v.y :=
    add_nonneg (mul_self_nonneg _) (mul_self_nonneg _)
  have hnsq : norm2 v * norm2 v = v.x * v.x + v.y * v.y := Real.mul_self_sqrt hs
  have hsne : v.x * v.x + v.y * v.y ≠ 0 := by
    intro h0
    exact h (by simp [norm2, h0])
  have hdiv : (v.x / norm2 v) * (v.x / norm2 v) + (v.y / norm2 v) * (v.y / norm2 v) =
      (v.x * v.x + v.y * v.y) / (norm2 v * norm2 v) := by
    field_simp
  show Real.sqrt _ = 1
  rw [show (v.div (norm2 v)).x = v.x / norm2 v from rfl,
    show (v.div (norm2 v)).y = v.y / norm2 v from rfl, hdiv, hnsq,
    div_self hsne, Real.sqrt_one]

theorem norm2_origo : norm2 origo = 0 := by
  simp [norm2, origo]

/-! ## C6: degenerate normalization -/

theorem directionToUnit_unit_or_zero (u s : Vec2) :
    directionToUnit u s = origo ∨ norm2 (directionToUnit u s) = 1 := by
  by_cases h : norm2 (u.sub s) = 0
  · left
    simp [directionToUnit, normalized, normalized2, h]
  · right
    simp only [directionToUnit, normalized, normalized2, h, if_false, Option.getD_some]
    exact norm2_unit _ h

/-- C6: normalizing a zero-length vector never produces an undefined
result: `normalized2` signals it and the call sites substitute the defined
zero vector (`?? origo`), `normalize` returns the zero vector outright, and
consequently the AI force direction `directionToUnit` that `syncToWorld`
hands to the physics world is always either the zero vector or an exactly
unit-length vector (over `ℝ`, where no NaN exists — the embedding of the
recovery that prevents NaN in the float code). -/
theorem normalization_unit_or_zero :
    norm2 origo = 0 ∧
    (normalized origo).getD origo = origo ∧
    Vec2.normalize origo = origo ∧
    (∀ u s, directionToUnit u s = origo ∨ norm2 (directionToUnit u s) = 1) := by
  refine ⟨norm2_origo, ?_, ?_, directionToUnit_unit_or_zero⟩
  · simp [normalized, normalized2, norm2_origo]
  · simp [Vec2.normalize, norm2_origo]

/-! ## The copy loops of `syncFromWorld` -/

theorem playerFromStep_eq (w : World) (refs : WorldReferences) (s : GameState) :
    playerFromStep w refs s = buildStep (playerFromValue w refs s) := by
  funext acc e
  unfold playerFromStep buildStep playerFromValue
  cases (Table.lookup refs.player e.1).bind w.getRigidBody with
  | some rb => rfl
  | none => cases Table.lookup s.players e.1 <;> rfl

theorem soldierFromStep_eq (w : World) (refs : WorldReferences) (s : GameState) :
    soldierFromStep w refs s = buildStep (soldierFromValue w refs s) := by
  funext acc e
  unfold soldierFromStep buildStep soldierFromValue
  cases (Table.lookup refs.soldier e.1).bind w.getRigidBody with
  | some rb => rfl
  | none => cases Table.lookup s.soldiers e.1 <;> rfl

theorem buildFold_lookup_aux {α : Type} (φ : (String × α) → Option α) (es : Table String α)
    (hnd : (Table.keys es).Nodup) (acc : Table String α) (k : String) :
    Table.lookup (es.foldl (buildStep φ) acc) k =
      match Table.lookup es k with
      | some v =>
        match φ (k, v) with
        | some w => some w
        | none => Table.lookup acc k
      | none => Table.lookup acc k := by
  induction es generalizing acc with
  | nil => rfl
  | cons e rest ih =>
    simp only [Table.keys, List.map_cons, List.nodup_cons] at hnd
    simp only [List.foldl_cons]
    rw [ih hnd.2]
    by_cases hk : e.1 = k
    · subst hk
      have hrest : Table.lookup rest e.1 = none :=
        Table.lookup_eq_none (by simpa [Table.keys] using hnd.1)
      have hhead : Table.lookup (e :: rest) e.1 = some e.2 := by
        simp [Table.lookup]
      simp only [hrest, hhead]
      cases hφ : φ (e.1, e.2) with
      | some v =>
        have he : φ e = some v := hφ
        simp only [hφ, buildStep, he, Table.lookup_set_self]
      | none =>
        have he : φ e = none := hφ
        simp only [hφ, buildStep, he]
    · have hacc : Table.lookup (buildStep φ acc e) k = Table.lookup acc k := by
        unfold buildStep
        cases φ e with
        | some v => exact Table.lookup_set_ne _ _ (fun h => hk h.symm)
        | none => rfl
      rw [hacc]
      simp only [Table.lookup, hk, if_false]

theorem buildFold_lookup {α : Type} (φ : (String × α) → Option α) (es : Table String α)
    (hnd : (Table.keys es).Nodup) (k : String) :
    Table.lookup (es.foldl (buildStep φ) []) k =
      match Table.lookup es k with
      | some v =>
        match φ (k, v) with
        | some w => some w
        | none => none
      | none => none := by
  rw [buildFold_lookup_aux φ es hnd [] k]
  cases Table.lookup es k with
  | none => rfl
  | some v => cases φ (k, v) <;> rfl

/-! ## C5: what `syncFromWorld` and `simulate` leave unchanged -/

/-- C5: `syncFromWorld` (and hence the whole `simulate` tick, for any
physics step) returns the units mapping of the input state unchanged —
unit positions are never written back from physics — and likewise carries
over the inputs mapping, every player's color and every soldier's owning
unit: only player and soldier positions are rewritten. -/
theorem syncFromWorld_frame (w : World) (refs : WorldReferences) (s : GameState)
    (hwf : StateWF s) :
    (syncFromWorld w refs s).units = s.units ∧
    (syncFromWorld w refs s).inputs = s.inputs ∧
    (∀ sid, (Table.lookup (syncFromWorld w refs s).soldiers sid).map Soldier.unitId =
      (Table.lookup s.soldiers sid).map Soldier.unitId) ∧
    (∀ pid, (Table.lookup (syncFromWorld w refs s).players pid).map Player.color =
      (Table.lookup s.players pid).map Player.color) ∧
    (∀ stepF, (simulate stepF s w refs).units = s.units) := by
  refine ⟨rfl, rfl, fun sid => ?_, fun pid => ?_, fun stepF => rfl⟩
  · have hsf : (syncFromWorld w refs s).soldiers =
        s.soldiers.foldl (soldierFromStep w refs s) [] := rfl
    rw [hsf, soldierFromStep_eq, buildFold_lookup _ _ hwf.soldiersNodup]
    cases hs : Table.lookup s.soldiers sid with
    | none => rfl
    | some sol =>
      cases hb : (Table.lookup refs.soldier sid).bind w.getRigidBody with
      | some rb => simp [soldierFromValue, hb]
      | none => simp [soldierFromValue, hb, hs]
  · have hpf : (syncFromWorld w refs s).players =
        s.players.foldl (playerFromStep w refs s) [] := rfl
    rw [hpf, playerFromStep_eq, buildFold_lookup _ _ hwf.playersNodup]
    cases hs : Table.lookup s.players pid with
    | none => rfl
    | some pl =>
      cases hb : (Table.lookup refs.player pid).bind w.getRigidBody with
      | some rb => simp [playerFromValue, hb]
      | none => simp [playerFromValue, hb, hs]

/-- Witness for C5 at the sample state, empty world and references. -/
theorem syncFromWorld_frame_witness :
    StateWF sEx ∧
    (syncFromWorld emptyWorld createWorldReferences sEx).units = sEx.units ∧
    (Table.lookup (syncFromWorld emptyWorld createWorldReferences sEx).soldiers "s1").map
      Soldier.unitId = (Table.lookup sEx.soldiers "s1").map Soldier.unitId := by
  have hwf : StateWF sEx := ⟨by simp [sEx, Table.keys], by simp [sEx, Table.keys]⟩
  have h := syncFromWorld_frame emptyWorld createWorldReferences sEx hwf
  exact ⟨hwf, h.1, h.2.2.1 "s1"⟩

/-! ## C7: deterministic palette colors -/

theorem xorshift32_lt (state : Nat) : xorshift32 state < two32 := by
  have hpos : 0 < two32 := by norm_num [two32]
  have key : ∀ a b : Nat, a < two32 → b < two32 → a ^^^ b < two32 := by
    intro a b ha hb
    have h32 : two32 = 2 ^ 32 := by norm_num [two32]
    rw [h32] at ha hb ⊢
    exact Nat.xor_lt_two_pow ha hb
  have h0 : state % two32 < two32 := Nat.mod_lt _ hpos
  have h1 : state % two32 ^^^ (state % two32 * 8192) % two32 < two32 :=
    key _ _ h0 (Nat.mod_lt _ hpos)
  have h2 : (state % two32 ^^^ (state % two32 * 8192) % two32) ^^^
      (state % two32 ^^^ (state % two32 * 8192) % two32) / 131072 < two32 :=
    key _ _ h1 (lt_of_le_of_lt (Nat.div_le_self _ _) h1)
  exact key _ _ h2 (Nat.mod_lt _ hpos)

theorem seededRandomInt_lt (seed : String) {i : Nat}
    (h : seededRandomInt seed 0 21 = some i) : i < 22 := by
  unfold seededRandomInt at h
  norm_num at h
  subst h
  have hpos : 0 < two32 := by norm_num [two32]
  rw [Nat.div_lt_iff_lt_mul hpos, Nat.mul_comm 22 two32]
  exact (Nat.mul_lt_mul_right (by norm_num : (0:Nat) < 22)).mpr (xorshift32_lt _)

theorem seededRandomInt_isSome (seed : String) :
    ∃ i, seededRandomInt seed 0 21 = some i := by
  unfold seededRandomInt
  norm_num

theorem pseudoRandomColor_mem (seed : String) :
    pseudoRandomColor seed ∈ palette.map Prod.snd := by
  have hlen : palette.length - 1 = 21 := rfl
  simp only [pseudoRandomColor]
  rw [hlen]
  obtain ⟨i, hi⟩ := seededRandomInt_isSome seed
  rw [hi]
  show (match List.get? palette i with
    | some e => e.2
    | none => "") ∈ List.map Prod.snd palette
  have hlt : i < palette.length := by
    have := seededRandomInt_lt seed hi
    simpa [palette] using this
  rw [List.get?_eq_get hlt]
  exact List.mem_map_of_mem Prod.snd (List.get_mem _ _ _)

theorem spawnSolider_players (sn : GameState × Nat) (uid : String) (pos : Vec2) :
    (spawnSolider sn uid pos).1.players = sn.1.players := rfl

theorem foldl_spawnSolider_players (l : List Nat) :
    ∀ (b : GameState × Nat) (uid : String) (g : Nat → Vec2),
      (l.foldl (fun acc i => spawnSolider acc uid (g i)) b).1.players = b.1.players := by
  induction l with
  | nil => intro b uid g; rfl
  | cons a rest ih =>
    intro b uid g
    rw [List.foldl_cons]
    exact ih _ uid g

theorem createUnitCompositions_players (sn : GameState × Nat) (pid : String) (pos : Vec2) :
    (createUnitCompositions sn pid pos).1.players = sn.1.players := by
  unfold createUnitCompositions
  exact (foldl_spawnSolider_players (List.range 20)
    ({ sn.1 with units := Table.set sn.1.units (uuid sn.2) ⟨pos, pid⟩ }, sn.2 + 1)
    (uuid sn.2)
    (fun i => Vec2.add pos
      (vector (((i : ℝ) - ((20 : Nat) : ℝ) / 2) * staticWorldConfig.soldier.radius * 2) 0))).trans
    rfl

theorem foldl_createUnitCompositions_players (l : List Nat) :
    ∀ (b : GameState × Nat) (pid : String) (g : Nat → Vec2),
      (l.foldl (fun acc i => createUnitCompositions acc pid (g i)) b).1.players = b.1.players := by
  induction l with
  | nil => intro b pid g; rfl
  | cons a rest ih =>
    intro b pid g
    rw [List.foldl_cons]
    exact (ih _ pid g).trans (createUnitCompositions_players b pid _)

theorem createArmy_players (sn : GameState × Nat) (pid : String) (pos : Vec2) :
    (createArmy sn pid pos).1.players = sn.1.players := by
  unfold createArmy
  exact foldl_createUnitCompositions_players (List.range 3) sn pid
    (fun i => Vec2.add pos (vector (((i : ℝ) - ((3 : Nat) : ℝ) / 2) * (400 : ℝ)) 0))

theorem handlePlayerJoin_players (sn : GameState × Nat) (pid : String) :
    (handlePlayerJoin sn pid).1.players =
      if Table.contains sn.1.players pid = true then sn.1.players
      else Table.set sn.1.players pid
        { position := vector 0 (((Table.keys sn.1.players).length : ℝ) * 300)
          color := pseudoRandomColor pid } := by
  by_cases h : Table.contains sn.1.players pid = true
  · rw [if_pos h]
    unfold handlePlayerJoin
    rw [if_pos h]
  · rw [if_neg h]
    unfold handlePlayerJoin
    rw [if_neg h]
    show Table.set (createArmy sn pid (vector 0 _)).1.players pid _ = _
    rw [createArmy_players]

theorem reachJoin_colors {sn : GameState × Nat} (h : ReachJoin sn) :
    ∀ pid p, Table.lookup sn.1.players pid = some p → p.color = pseudoRandomColor pid := by
  induction h with
  | init =>
    intro pid p hp
    simp [initialGameState, Table.lookup] at hp
  | join sn pid0 hr ih =>
    intro pid p hp
    rw [handlePlayerJoin_players] at hp
    by_cases hc : Table.contains sn.1.players pid0 = true
    · rw [if_pos hc] at hp
      exact ih pid p hp
    · rw [if_neg hc] at hp
      by_cases hpid : pid = pid0
      · subst hpid
        rw [Table.lookup_set_self] at hp
        cases hp
        rfl
      · rw [Table.lookup_set_ne _ _ hpid] at hp
        exact ih pid p hp

theorem reachJoin_createInitialState (ids : List String) :
    ReachJoin (createInitialState ids) := by
  unfold createInitialState
  exact foldl_preserves (P := ReachJoin) (fun b c h => ReachJoin.join b c h) ids ReachJoin.init

/-- C7: the color assigned to a participant is a deterministic function of
its identifier alone — `pseudoRandomColor` of the id, independent of the
roster —, it always lies in the fixed palette, and hence two state
creations that both contain an id give it the same color. -/
theorem participantColor_deterministic :
    (∀ ids pid p, Table.lookup (createInitialState ids).1.players pid = some p →
      p.color = pseudoRandomColor pid) ∧
    (∀ seed, pseudoRandomColor seed ∈ palette.map Prod.snd) ∧
    (∀ ids1 ids2 pid p1 p2,
      Table.lookup (createInitialState ids1).1.players pid = some p1 →
      Table.lookup (createInitialState ids2).1.players pid = some p2 →
      p1.color = p2.color) := by
  have main : ∀ ids pid p, Table.lookup (createInitialState ids).1.players pid = some p →
      p.color = pseudoRandomColor pid :=
    fun ids pid p hp => reachJoin_colors (reachJoin_createInitialState ids) pid p hp
  exact ⟨main, pseudoRandomColor_mem,
    fun ids1 ids2 pid p1 p2 h1 h2 => (main ids1 pid p1 h1).trans (main ids2 pid p2 h2).symm⟩

/-- Witness for C7: the single participant of `createInitialState ["a"]`
carries exactly `pseudoRandomColor "a"`, which is a palette color. -/
theorem participantColor_deterministic_witness :
    (∃ p, Table.lookup (createInitialState ["a"]).1.players "a" = some p ∧
      p.color = pseudoRandomColor "a") ∧
    pseudoRandomColor "a" ∈ palette.map Prod.snd := by
  have hlookup : Table.lookup (createInitialState ["a"]).1.players "a" =
      some { position := vector 0 (((0 : Nat) : ℝ) * 300), color := pseudoRandomColor "a" } := by
    show Table.lookup (handlePlayerJoin (initialGameState, 0) "a").1.players "a" = _
    rw [handlePlayerJoin_players]
    rfl
  exact ⟨⟨_, hlookup, participantColor_deterministic.1 ["a"] "a" _ hlookup⟩,
    participantColor_deterministic.2.1 "a"⟩

/-! ## C10: soldier-to-unit references never dangle -/

theorem Table.lookup_set_cases {κ α : Type} [DecidableEq κ] {t : Table κ α} {k k' : κ}
    {v w : α} (h : Table.lookup (Table.set t k v) k' = some w) :
    Table.lookup t k' = some w ∨ w = v := by
  by_cases hk : k' = k
  · subst hk
    rw [Table.lookup_set_self] at h
    exact Or.inr (Option.some.inj h).symm
  · rw [Table.lookup_set_ne _ _ hk] at h
    exact Or.inl h

theorem buildFold_mem {α : Type} (φ : (String × α) → Option α) :
    ∀ (es acc : Table String α) (e : String × α), e ∈ es.foldl (buildStep φ) acc →
      e ∈ acc ∨ ∃ e0 ∈ es, φ e0 = some e.2 := by
  intro es
  induction es with
  | nil => intro acc e he; exact Or.inl he
  | cons e1 rest ih =>
    intro acc e he
    rw [List.foldl_cons] at he
    rcases ih (buildStep φ acc e1) e he with h1 | ⟨e0, he0, hφ⟩
    · unfold buildStep at h1
      cases hφ1 : φ e1 with
      | some v =>
        rw [hφ1] at h1
        rcases Table.mem_set h1 with h2 | h2
        · exact Or.inl h2
        · right
          exact ⟨e1, List.mem_cons_self _ _, by rw [hφ1, h2]⟩
      | none =>
        rw [hφ1] at h1
        exact Or.inl h1
    · exact Or.inr ⟨e0, List.mem_cons_of_mem _ he0, hφ⟩

theorem syncFromWorld_linkedMem (w : World) (refs : WorldReferences) (s : GameState)
    (h : SoldiersLinkedMem s) : SoldiersLinkedMem (syncFromWorld w refs s) := by
  intro e he
  show (Table.lookup s.units (Soldier.unitId e.2)).isSome = true
  have hes : (syncFromWorld w refs s).soldiers =
      s.soldiers.foldl (buildStep (soldierFromValue w refs s)) [] := by
    rw [show (syncFromWorld w refs s).soldiers =
      s.soldiers.foldl (soldierFromStep w refs s) [] from rfl, soldierFromStep_eq]
  rw [hes] at he
  rcases buildFold_mem _ s.soldiers [] e he with h1 | ⟨e0, he0, hφ⟩
  · simp at h1
  · unfold soldierFromValue at hφ
    cases hb : (Table.lookup refs.soldier e0.1).bind w.getRigidBody with
    | some rb =>
      rw [hb] at hφ
      have h2 : ({ e0.2 with position := vector rb.translation.x rb.translation.y } : Soldier)
          = e.2 := Option.some.inj hφ
      rw [← h2]
      exact h e0 he0
    | none =>
      rw [hb] at hφ
      exact h (e0.1, e.2) (Table.lookup_mem hφ)

theorem applyInput_linkedMem (s : GameState) (pid : String) (inp : PlayerInput)
    (h : SoldiersLinkedMem s) : SoldiersLinkedMem (applyInput s pid inp) := by
  intro e he
  rw [(applyInput_moveUnit_spec s pid inp).2.2.1] at he
  have hu := (applyInput_moveUnit_spec s pid inp).1 (Soldier.unitId e.2)
  rw [hu]
  have := h e he
  cases hl : Table.lookup s.units (Soldier.unitId e.2) with
  | none => rw [hl] at this; simp at this
  | some u => simp

theorem foldl_spawnSolider_spec (l : List Nat) :
    ∀ (b : GameState × Nat) (uid : String) (g : Nat → Vec2),
      ((l.foldl (fun acc i => spawnSolider acc uid (g i)) b).1.units = b.1.units) ∧
      (∀ e, e ∈ (l.foldl (fun acc i => spawnSolider acc uid (g i)) b).1.soldiers →
        e ∈ b.1.soldiers ∨ Soldier.unitId e.2 = uid) := by
  induction l with
  | nil => intro b uid g; exact ⟨rfl, fun e he => Or.inl he⟩
  | cons a rest ih =>
    intro b uid g
    obtain ⟨ihu, ihs⟩ := ih (spawnSolider b uid (g a)) uid g
    constructor
    · rw [List.foldl_cons]
      exact ihu.trans rfl
    · intro e he
      rw [List.foldl_cons] at he
      rcases ihs e he with h1 | h1
      · rcases Table.mem_set h1 with h2 | h2
        · exact Or.inl h2
        · right
          rw [h2]
      · exact Or.inr h1

theorem createUnitCompositions_spec (sn : GameState × Nat) (pid : String) (pos : Vec2) :
    ((createUnitCompositions sn pid pos).1.units =
      Table.set sn.1.units (uuid sn.2) ⟨pos, pid⟩) ∧
    (∀ e, e ∈ (createUnitCompositions sn pid pos).1.soldiers →
      e ∈ sn.1.soldiers ∨ Soldier.unitId e.2 = uuid sn.2) := by
  have spec := foldl_spawnSolider_spec (List.range 20)
    ({ sn.1 with units := Table.set sn.1.units (uuid sn.2) ⟨pos, pid⟩ }, sn.2 + 1)
    (uuid sn.2)
    (fun i => Vec2.add pos
      (vector (((i : ℝ) - ((20 : Nat) : ℝ) / 2) * staticWorldConfig.soldier.radius * 2) 0))
  constructor
  · show (createUnitCompositions sn pid pos).1.units = _
    unfold createUnitCompositions
    exact spec.1.trans rfl
  · intro e he
    have he2 := he
    unfold createUnitCompositions at he2
    exact spec.2 e he2

theorem GrowLinked.trans {a b c : GameState × Nat} (h1 : GrowLinked a b)
    (h2 : GrowLinked b c) : GrowLinked a c := by
  refine ⟨fun k hk => h2.1 k (h1.1 k hk), fun e he => ?_⟩
  rcases h2.2 e he with h | h
  · rcases h1.2 e h with h3 | h3
    · exact Or.inl h3
    · exact Or.inr (h2.1 _ h3)
  · exact Or.inr h

theorem GrowLinked.linked {a b : GameState × Nat} (g : GrowLinked a b)
    (h : SoldiersLinkedMem a.1) : SoldiersLinkedMem b.1 := by
  intro e he
  rcases g.2 e he with h1 | h1
  · exact g.1 _ (h e h1)
  · exact h1

theorem createUnitCompositions_growLinked (b : GameState × Nat) (pid : String) (pos : Vec2) :
    GrowLinked b (createUnitCompositions b pid pos) := by
  have cu := createUnitCompositions_spec b pid pos
  constructor
  · intro k hk
    rw [cu.1]
    by_cases hke : k = uuid b.2
    · subst hke
      rw [Table.lookup_set_self]
      rfl
    · rw [Table.lookup_set_ne _ _ hke]
      exact hk
  · intro e he
    rcases cu.2 e he with h1 | h1
    · exact Or.inl h1
    · right
      rw [h1, cu.1, Table.lookup_set_self]
      rfl

theorem createArmy_growLinked (sn : GameState × Nat) (pid : String) (pos : Vec2) :
    GrowLinked sn (createArmy sn pid pos) := by
  unfold createArmy
  show GrowLinked sn (List.foldl _ sn (List.range 3))
  have hr : List.range 3 = [0, 1, 2] := by decide
  rw [hr]
  simp only [List.foldl_cons, List.foldl_nil]
  exact ((createUnitCompositions_growLinked sn pid _).trans
    (createUnitCompositions_growLinked _ pid _)).trans
    (createUnitCompositions_growLinked _ pid _)

theorem handlePlayerJoin_linked (sn : GameState × Nat) (pid : String)
    (h : SoldiersLinkedMem sn.1) : SoldiersLinkedMem (handlePlayerJoin sn pid).1 := by
  by_cases hc : Table.contains sn.1.players pid = true
  · unfold handlePlayerJoin
    rw [if_pos hc]
    exact h
  · have hsold : (handlePlayerJoin sn pid).1.soldiers =
        (createArmy sn pid
          (vector 0 (((Table.keys sn.1.players).length : ℝ) * 300))).1.soldiers := by
      unfold handlePlayerJoin
      rw [if_neg hc]
    have hunits : (handlePlayerJoin sn pid).1.units =
        (createArmy sn pid
          (vector 0 (((Table.keys sn.1.players).length : ℝ) * 300))).1.units := by
      unfold handlePlayerJoin
      rw [if_neg hc]
    intro e he
    rw [hsold] at he
    show (Table.lookup (handlePlayerJoin sn pid).1.units (Soldier.unitId e.2)).isSome = true
    rw [hunits]
    exact (createArmy_growLinked sn pid _).linked h e he

theorem handlePlayerLeave_linked (s : GameState) (pid : String)
    (h : SoldiersLinkedMem s) : SoldiersLinkedMem (handlePlayerLeave s pid) := by
  intro e he
  exact h e he

/-- C10: in every state reachable from `createInitialState` via joins,
leaves, `applyInput` and `syncFromWorld`, every soldier's `unitId` resolves
in the units mapping: no core operation removes a unit, so soldier-to-unit
references never dangle, even after the owning participant has left. -/
theorem reach_soldiers_linked (sn : GameState × Nat) (h : Reach sn) : SoldiersLinked sn.1 := by
  have main : SoldiersLinkedMem sn.1 := by
    induction h with
    | init ids =>
      unfold createInitialState
      exact foldl_preserves (P := fun x : GameState × Nat => SoldiersLinkedMem x.1)
        (fun b c hb => handlePlayerJoin_linked b c hb) ids
        (b := (initialGameState, 0)) (by intro e he; simp [initialGameState] at he)
    | join sn2 pid hr ih => exact handlePlayerJoin_linked sn2 pid ih
    | leave sn2 pid hr ih => exact handlePlayerLeave_linked sn2.1 pid ih
    | input sn2 pid inp hr ih => exact applyInput_linkedMem sn2.1 pid inp ih
    | fromWorld sn2 w refs hr ih => exact syncFromWorld_linkedMem w refs sn2.1 ih
  intro sid sol hs
  exact main (sid, sol) (Table.lookup_mem hs)

/-- Witness for C10 at the freshly created single-participant state. -/
theorem reach_soldiers_linked_witness :
    SoldiersLinked (createInitialState ["a"]).1 :=
  reach_soldiers_linked (createInitialState ["a"]) (Reach.init ["a"])

/-! ## C9: spawn positions -/

theorem Table.set_eq_append {κ α : Type} [DecidableEq κ] {t : Table κ α} {k : κ} (v : α) :
    k ∉ Table.keys t → Table.set t k v = t ++ [(k, v)] := by
  induction t with
  | nil => intro h; rfl
  | cons e rest ih =>
    intro h
    simp only [Table.keys, List.map_cons, List.mem_cons] at h
    push_neg at h
    have h1 : ¬ e.1 = k := fun he => h.1 he.symm
    simp [Table.set, h1, ih (by simpa [Table.keys] using h.2)]

theorem rangeMap_snoc (n : Nat) (g : Nat → Vec2) :
    (List.range (n + 1)).map g = (List.range n).map g ++ [g n] := by
  rw [show n + 1 = Nat.succ n from rfl, List.range_succ, List.map_append]
  rfl

theorem reachJoin_positions {sn : GameState × Nat} (h : ReachJoin sn) :
    sn.1.players.map (fun e => Player.position e.2) =
      (List.range sn.1.players.length).map (fun (i : Nat) => vector 0 ((i : ℝ) * 300)) := by
  induction h with
  | init => rfl
  | join sn pid hr ih =>
    have hp := handlePlayerJoin_players sn pid
    by_cases hc : Table.contains sn.1.players pid = true
    · rw [if_pos hc] at hp
      rw [hp]
      exact ih
    · rw [if_neg hc] at hp
      have hnotmem : pid ∉ Table.keys sn.1.players := fun hm => hc (Table.contains_iff.mpr hm)
      rw [hp, Table.set_eq_append _ hnotmem, List.map_append, ih, List.length_append]
      have h1 : sn.1.players.length + [(pid,
          ({ position := vector 0 (((Table.keys sn.1.players).length : ℝ) * 300),
             color := pseudoRandomColor pid } : Player))].length
          = sn.1.players.length + 1 := by
        simp
      rw [h1, rangeMap_snoc]
      have hkl : (Table.keys sn.1.players).length = sn.1.players.length := by
        simp [Table.keys]
      congr 1
      simp [hkl]

/-- C9 (amended, restricted to join-only histories as the counterexample
forces): in every state reachable by `createInitialState` and participant
joins (no leaves), all player positions are pairwise distinct, so a newly
created participant never spawns on an existing participant's position. -/
theorem reachJoin_spawns_distinct (sn : GameState × Nat) (h : ReachJoin sn) :
    SpawnsDistinct sn.1 := by
  have hpos := reachJoin_positions h
  intro p q pl ql hpq hp hq hcontra
  obtain ⟨i, hi⟩ := List.mem_iff_get.mp (Table.lookup_mem hp)
  obtain ⟨j, hj⟩ := List.mem_iff_get.mp (Table.lookup_mem hq)
  have hgi : sn.1.players[(i : Nat)]? = some (p, pl) := by
    rw [List.getElem?_eq_getElem i.isLt, ← List.get_eq_getElem, hi]
  have hgj : sn.1.players[(j : Nat)]? = some (q, ql) := by
    rw [List.getElem?_eq_getElem j.isLt, ← List.get_eq_getElem, hj]
  have key : ∀ (k : Fin sn.1.players.length) (r : String) (rl : Player),
      sn.1.players[(k : Nat)]? = some (r, rl) →
      rl.position = vector 0 (((k : Nat) : ℝ) * 300) := by
    intro k r rl hk
    have h1 := congrArg (fun t => t[(k : Nat)]?) hpos
    simp only [List.getElem?_map] at h1
    rw [hk, List.getElem?_range (by simpa using k.isLt)] at h1
    simpa using h1
  have hip := key i p pl hgi
  have hjp := key j q ql hgj
  have hij : (i : Nat) = (j : Nat) := by
    have h2 := hcontra
    rw [hip, hjp] at h2
    have h3 : (((i : Nat) : ℝ)) * 300 = (((j : Nat) : ℝ)) * 300 := by
      have := congrArg Vec2.y h2
      simpa [vector] using this
    have h4 : (((i : Nat) : ℝ)) = (((j : Nat) : ℝ)) :=
      mul_right_cancel₀ (by norm_num) h3
    exact_mod_cast h4
  apply hpq
  have heq : sn.1.players.get i = sn.1.players.get j := by
    have hfin : i = j := Fin.ext hij
    rw [hfin]
  rw [hi, hj] at heq
  exact congrArg Prod.fst heq

/-- Witness for the amended C9 at a two-participant creation. -/
theorem reachJoin_spawns_distinct_witness :
    ReachJoin (createInitialState ["a", "b"]) ∧
    SpawnsDistinct (createInitialState ["a", "b"]).1 :=
  ⟨reachJoin_createInitialState ["a", "b"],
    reachJoin_spawns_distinct (createInitialState ["a", "b"])
      (reachJoin_createInitialState ["a", "b"])⟩

/-- C9 counterexample: after `createInitialState ["a","b","c"]`, the leave
of "b" and the join of "d", the newly created participant "d" is assigned
spawn position `(0, 2*300)` — exactly the position of the already-present
participant "c" (spawn index reuses the shrunken player count). -/
theorem spawnOverlap_counterexample :
    "d" ≠ "c" ∧
    Table.lookup s9c.1.players "d" =
      some { position := vector 0 (((2 : Nat) : ℝ) * 300), color := pseudoRandomColor "d" } ∧
    Table.lookup s9c.1.players "c" =
      some { position := vector 0 (((2 : Nat) : ℝ) * 300), color := pseudoRandomColor "c" } :=
  ⟨by decide, rfl, rfl⟩

/-! ## C3: soldier avoidance -/

theorem updateSoldierDirection_some (s : GameState) (soldier : Soldier) (others : List Vec2)
    (unit : GameUnit) (hu : Table.lookup s.units soldier.unitId = some unit) :
    updateSoldierDirection s soldier others =
      some ((normalized
        ((((normalized (unit.position.sub soldier.position)).getD origo).scale
          (1 - (match (soldierScan soldier.position others).closestDistanceSquared with
            | some c => if c < avoidanceRadiusSquared then (1 : ℝ) else 0
            | none => 0))).add
        ((soldierScan soldier.position others).avoidanceDirection.scale
          (match (soldierScan soldier.position others).closestDistanceSquared with
            | some c => if c < avoidanceRadiusSquared then (1 : ℝ) else 0
            | none => 0)))).getD
        ((normalized (unit.position.sub soldier.position)).getD origo)) := by
  unfold updateSoldierDirection
  rw [hu]

theorem scanFold_spec (p : Vec2) (others : List Vec2) :
    ∀ acc : AvoidScan,
      (∃ o ∈ others,
        (others.foldl (scanStep p) acc).closestDistanceSquared =
          some (lengthSquared (p.sub o)) ∧
        (others.foldl (scanStep p) acc).avoidanceDirection = (normalized (p.sub o)).getD origo ∧
        (∀ o2 ∈ others, lengthSquared (p.sub o) ≤ lengthSquared (p.sub o2)) ∧
        (∀ c0, acc.closestDistanceSquared = some c0 → lengthSquared (p.sub o) < c0)) ∨
      ((others.foldl (scanStep p) acc) = acc ∧
        (∀ o2 ∈ others, ∃ c0, acc.closestDistanceSquared = some c0 ∧
          c0 ≤ lengthSquared (p.sub o2))) := by
  induction others with
  | nil =>
    intro acc
    right
    exact ⟨rfl, fun o2 ho2 => absurd ho2 (List.not_mem_nil o2)⟩
  | cons o rest ih =>
    intro acc
    cases hc : acc.closestDistanceSquared with
    | none =>
      have hstep : scanStep p acc o =
          { closestDistanceSquared := some (lengthSquared (p.sub o))
            avoidanceDirection := (normalized (p.sub o)).getD origo } := by
        simp only [scanStep, hc]
      rcases ih (scanStep p acc o) with ⟨o1, ho1, h1, h2, h3, h4⟩ | ⟨heq, hall⟩
      · left
        refine ⟨o1, List.mem_cons_of_mem _ ho1, by rw [List.foldl_cons]; exact h1,
          by rw [List.foldl_cons]; exact h2, ?_, ?_⟩
        · intro o2 ho2
          rcases List.mem_cons.mp ho2 with h5 | h5
          · subst h5
            exact le_of_lt (h4 _ (by rw [hstep]))
          · exact h3 o2 h5
        · intro c0 hc0
          exact Option.noConfusion hc0
      · left
        refine ⟨o, List.mem_cons_self _ _, ?_, ?_, ?_, ?_⟩
        · rw [List.foldl_cons, heq, hstep]
        · rw [List.foldl_cons, heq, hstep]
        · intro o2 ho2
          rcases List.mem_cons.mp ho2 with h5 | h5
          · subst h5
            exact le_refl _
          · obtain ⟨c0, hcc, hle⟩ := hall o2 h5
            rw [hstep] at hcc
            have h6 : lengthSquared (p.sub o) = c0 := Option.some.inj hcc
            rw [h6]
            exact hle
        · intro c0 hc0
          exact Option.noConfusion hc0
    | some c =>
      by_cases hlt : lengthSquared (p.sub o) < c
      · have hstep : scanStep p acc o =
            { closestDistanceSquared := some (lengthSquared (p.sub o))
              avoidanceDirection := (normalized (p.sub o)).getD origo } := by
          simp only [scanStep, hc, if_pos hlt]
        rcases ih (scanStep p acc o) with ⟨o1, ho1, h1, h2, h3, h4⟩ | ⟨heq, hall⟩
        · left
          have h7 : lengthSquared (p.sub o1) < lengthSquared (p.sub o) :=
            h4 _ (by rw [hstep])
          refine ⟨o1, List.mem_cons_of_mem _ ho1, by rw [List.foldl_cons]; exact h1,
            by rw [List.foldl_cons]; exact h2, ?_, ?_⟩
          · intro o2 ho2
            rcases List.mem_cons.mp ho2 with h5 | h5
            · subst h5
              exact le_of_lt h7
            · exact h3 o2 h5
          · intro c0 hc0
            have h8 : c = c0 := Option.some.inj hc0
            rw [← h8]
            exact lt_trans h7 hlt
        · left
          refine ⟨o, List.mem_cons_self _ _, ?_, ?_, ?_, ?_⟩
          · rw [List.foldl_cons, heq, hstep]
          · rw [List.foldl_cons, heq, hstep]
          · intro o2 ho2
            rcases List.mem_cons.mp ho2 with h5 | h5
            · subst h5
              exact le_refl _
            · obtain ⟨c0, hcc, hle⟩ := hall o2 h5
              rw [hstep] at hcc
              have h6 : lengthSquared (p.sub o) = c0 := Option.some.inj hcc
              rw [h6]
              exact hle
          · intro c0 hc0
            have h8 : c = c0 := Option.some.inj hc0
            rw [← h8]
            exact hlt
      · have hstep : scanStep p acc o = acc := by
          simp only [scanStep, hc, if_neg hlt]
        rcases ih acc with ⟨o1, ho1, h1, h2, h3, h4⟩ | ⟨heq, hall⟩
        · left
          refine ⟨o1, List.mem_cons_of_mem _ ho1, by rw [List.foldl_cons, hstep]; exact h1,
            by rw [List.foldl_cons, hstep]; exact h2, ?_,
            fun c0 hc0 => h4 c0 (hc.trans hc0)⟩
          intro o2 ho2
          rcases List.mem_cons.mp ho2 with h5 | h5
          · subst h5
            exact le_of_lt (lt_of_lt_of_le (h4 c hc) (le_of_not_lt hlt))
          · exact h3 o2 h5
        · right
          refine ⟨by rw [List.foldl_cons, hstep]; exact heq, ?_⟩
          intro o2 ho2
          rcases List.mem_cons.mp ho2 with h5 | h5
          · subst h5
            exact ⟨c, rfl, le_of_not_lt hlt⟩
          · obtain ⟨c0, hcc, hle⟩ := hall o2 h5
            rw [hc] at hcc
            exact ⟨c0, hcc, hle⟩

theorem normalized_getD_eq_div (d : Vec2) (t : Vec2) (hd : ¬ norm2 d = 0) :
    (normalized d).getD t = d.div (norm2 d) := by
  simp only [normalized, normalized2, if_neg hd, Option.getD_some]

theorem normalized_getD_of_unit (a t : Vec2) (h : norm2 a = 1) :
    (normalized a).getD t = a := by
  have h0 : ¬ norm2 a = 0 := by
    rw [h]
    norm_num
  rw [normalized_getD_eq_div a t h0, h]
  show (⟨a.x / 1, a.y / 1⟩ : Vec2) = a
  rw [div_one, div_one]

theorem scale_pass_add (t a : Vec2) : (t.scale (1 - 1)).add (a.scale 1) = a := by
  have hx : t.x * (1 - 1) + a.x * 1 = a.x := by ring
  have hy : t.y * (1 - 1) + a.y * 1 = a.y := by ring
  show (⟨t.x * (1 - 1) + a.x * 1, t.y * (1 - 1) + a.y * 1⟩ : Vec2) = a
  rw [hx, hy]

theorem scale_keep_add (t a : Vec2) : (t.scale (1 - 0)).add (a.scale 0) = t := by
  have hx : t.x * (1 - 0) + a.x * 0 = t.x := by ring
  have hy : t.y * (1 - 0) + a.y * 0 = t.y := by ring
  show (⟨t.x * (1 - 0) + a.x * 0, t.y * (1 - 0) + a.y * 0⟩ : Vec2) = t
  rw [hx, hy]

/-- C3 (amended): the default avoidance radius is 1.5× the soldier
diameter (i.e. 3× the radius, 15 world units), not 3× the diameter; inside
it the binary switch does hold: whenever the proximity scan finds a
nearest neighbor strictly inside `avoidanceRadiusSquared` (and no scanned
neighbor coincides with the soldier's own position), the steering
direction handed to the physics world is weighted fully toward the
repulsion direction away from that nearest neighbor — the pure
direction-to-unit contributes with weight `1 - 1 = 0`. -/
theorem updateSoldier_full_avoidance (s : GameState) (soldier : Soldier) (others : List Vec2)
    (unit : GameUnit) (c : ℝ)
    (hu : Table.lookup s.units soldier.unitId = some unit)
    (hc : (soldierScan soldier.position others).closestDistanceSquared = some c)
    (hlt : c < avoidanceRadiusSquared)
    (hsep : ∀ o ∈ others, soldier.position.sub o ≠ origo) :
    avoidanceDist = 1.5 * (staticWorldConfig.soldier.radius * 2) ∧
    ∃ nearest ∈ others,
      (∀ o ∈ others,
        lengthSquared (soldier.position.sub nearest) ≤ lengthSquared (soldier.position.sub o)) ∧
      updateSoldierDirection s soldier others =
        some ((normalized (soldier.position.sub nearest)).getD origo) := by
  constructor
  · show staticWorldConfig.soldier.radius * 2 * 1.5 = _
    ring
  · rcases scanFold_spec soldier.position others
      { closestDistanceSquared := none, avoidanceDirection := origo } with
      ⟨o1, ho1, h1, h2, h3, h4⟩ | ⟨heq, hall⟩
    · have h1s : (soldierScan soldier.position others).closestDistanceSquared =
          some (lengthSquared (soldier.position.sub o1)) := h1
      have h2s : (soldierScan soldier.position others).avoidanceDirection =
          (normalized (soldier.position.sub o1)).getD origo := h2
      have hceq : c = lengthSquared (soldier.position.sub o1) :=
        Option.some.inj (hc.symm.trans h1s)
      have hin : lengthSquared (soldier.position.sub o1) < avoidanceRadiusSquared :=
        hceq ▸ hlt
      have hd : ¬ norm2 (soldier.position.sub o1) = 0 := by
        intro h0
        exact hsep o1 ho1 ((norm2_eq_zero_iff _).mp h0)
      have hdir : (normalized (soldier.position.sub o1)).getD origo =
          (soldier.position.sub o1).div (norm2 (soldier.position.sub o1)) :=
        normalized_getD_eq_div _ _ hd
      have hunit1 : norm2 ((normalized (soldier.position.sub o1)).getD origo) = 1 := by
        rw [hdir]
        exact norm2_unit _ hd
      refine ⟨o1, ho1, h3, ?_⟩
      rw [updateSoldierDirection_some s soldier others unit hu]
      rw [h1s, h2s]
      show some ((normalized
        ((((normalized (unit.position.sub soldier.position)).getD origo).scale
          (1 - (if lengthSquared (soldier.position.sub o1) < avoidanceRadiusSquared
            then (1 : ℝ) else 0))).add
        (((normalized (soldier.position.sub o1)).getD origo).scale
          (if lengthSquared (soldier.position.sub o1) < avoidanceRadiusSquared
            then (1 : ℝ) else 0)))).getD
        ((normalized (unit.position.sub soldier.position)).getD origo)) = _
      rw [if_pos hin, scale_pass_add, normalized_getD_of_unit _ _ hunit1]
    · rw [show soldierScan soldier.position others =
          others.foldl (scanStep soldier.position)
            { closestDistanceSquared := none, avoidanceDirection := origo } from rfl,
        heq] at hc
      exact Option.noConfusion hc

/-- Witness for the amended C3: one neighbor at distance 10 (inside the
radius 15); the soldier steers exactly away from it. -/
theorem updateSoldier_full_avoidance_witness :
    avoidanceDist = 1.5 * (staticWorldConfig.soldier.radius * 2) ∧
    ∃ nearest ∈ [vector 10 0],
      (∀ o ∈ [vector 10 0],
        lengthSquared (solC3.position.sub nearest) ≤ lengthSquared (solC3.position.sub o)) ∧
      updateSoldierDirection sC3 solC3 [vector 10 0] =
        some ((normalized (solC3.position.sub nearest)).getD origo) :=
  updateSoldier_full_avoidance sC3 solC3 [vector 10 0] ⟨vector 100 0, "p1"⟩
    (lengthSquared (solC3.position.sub (vector 10 0))) rfl rfl
    (by
      norm_num [lengthSquared, Vec2.sub, solC3, vector, avoidanceRadiusSquared, avoidanceDist,
        staticWorldConfig, natureConstG])
    (by
      intro o ho
      have h1 : o = vector 10 0 := by simpa using ho
      subst h1
      intro h2
      have h3 := congrArg Vec2.x h2
      norm_num [Vec2.sub, solC3, vector, origo] at h3)

/-- C3 counterexample: two soldier bodies 20 apart are within the claimed
avoidance radius 3 × diameter = 30, yet the code's radius is 15, the
avoidance weight is 0, and the steering direction is exactly the pure
direction toward the owning unit (`directionToUnit`), with no repulsion
component. -/
theorem avoidanceRadius_counterexample :
    Vec2.dist solC3.position (vector 20 0) < 3 * (staticWorldConfig.soldier.radius * 2) ∧
    updateSoldierDirection sC3 solC3 [vector 20 0] =
      some (directionToUnit (vector 100 0) solC3.position) := by
  constructor
  · have h1 : ((vector 20 0).x - solC3.position.x) * ((vector 20 0).x - solC3.position.x) +
        ((vector 20 0).y - solC3.position.y) * ((vector 20 0).y - solC3.position.y)
        = 20 ^ 2 := by
      norm_num [solC3, vector]
    unfold Vec2.dist
    rw [h1, Real.sqrt_sq (by norm_num : (0:ℝ) ≤ 20)]
    norm_num [staticWorldConfig]
  · have hu : Table.lookup sC3.units solC3.unitId =
        some ⟨vector 100 0, "p1"⟩ := rfl
    rw [updateSoldierDirection_some sC3 solC3 [vector 20 0] ⟨vector 100 0, "p1"⟩ hu]
    have hscan : (soldierScan solC3.position [vector 20 0]).closestDistanceSquared =
        some (lengthSquared (solC3.position.sub (vector 20 0))) := rfl
    rw [hscan]
    have hout : ¬ (lengthSquared (solC3.position.sub (vector 20 0)) < avoidanceRadiusSquared) := by
      norm_num [lengthSquared, Vec2.sub, solC3, vector, avoidanceRadiusSquared, avoidanceDist,
        staticWorldConfig]
    show some ((normalized
      ((((normalized ((⟨vector 100 0, "p1"⟩ : GameUnit).position.sub solC3.position)).getD
          origo).scale
        (1 - (if lengthSquared (solC3.position.sub (vector 20 0)) < avoidanceRadiusSquared
          then (1 : ℝ) else 0))).add
      ((soldierScan solC3.position [vector 20 0]).avoidanceDirection.scale
        (if lengthSquared (solC3.position.sub (vector 20 0)) < avoidanceRadiusSquared
          then (1 : ℝ) else 0)))).getD
      ((normalized ((⟨vector 100 0, "p1"⟩ : GameUnit).position.sub solC3.position)).getD
        origo)) = _
    rw [if_neg hout, scale_keep_add]
    have hd : ¬ norm2 ((⟨vector 100 0, "p1"⟩ : GameUnit).position.sub solC3.position) = 0 := by
      intro h0
      have h1 := congrArg Vec2.x ((norm2_eq_zero_iff _).mp h0)
      norm_num [Vec2.sub, solC3, vector, origo] at h1
    have hunit1 : norm2 ((normalized
        ((⟨vector 100 0, "p1"⟩ : GameUnit).position.sub solC3.position)).getD origo) = 1 := by
      rw [normalized_getD_eq_div _ _ hd]
      exact norm2_unit _ hd
    rw [normalized_getD_of_unit _ _ hunit1]
    rfl

/-! ## World operation lemmas -/

theorem getRigidBody_modify_self (w : World) (h : Nat) (f : Body → Body) :
    (w.modifyBody h f).getRigidBody h = (w.getRigidBody h).map f :=
  Table.lookup_modify_self _ _ _

theorem getRigidBody_modify_ne (w : World) {h h2 : Nat} (f : Body → Body) (hne : h2 ≠ h) :
    (w.modifyBody h f).getRigidBody h2 = w.getRigidBody h2 :=
  Table.lookup_modify_ne _ _ hne

theorem modify_nextHandle (w : World) (h : Nat) (f : Body → Body) :
    (w.modifyBody h f).nextHandle = w.nextHandle := rfl

theorem modify_keys (w : World) (h : Nat) (f : Body → Body) :
    Table.keys (w.modifyBody h f).bodies = Table.keys w.bodies :=
  Table.keys_modify _ _ _

theorem WorldWF.modify {w : World} (hw : WorldWF w) (h : Nat) (f : Body → Body) :
    WorldWF (w.modifyBody h f) := by
  constructor
  · intro h2 b hb
    have hb2 : (w.modifyBody h f).getRigidBody h2 = some b := hb
    show h2 < w.nextHandle
    by_cases he : h2 = h
    · subst he
      rw [getRigidBody_modify_self] at hb2
      cases hl : w.getRigidBody h2 with
      | none => rw [hl] at hb2; exact Option.noConfusion hb2
      | some b0 => exact hw.bounded h2 b0 hl
    · rw [getRigidBody_modify_ne w f he] at hb2
      exact hw.bounded h2 _ hb2
  · show (Table.keys (Table.modify w.bodies h f)).Nodup
    rw [Table.keys_modify]
    exact hw.nodupKeys

theorem liveAt_modify (w : World) (h h2 : Nat) (f : Body → Body) :
    liveAt (w.modifyBody h f) h2 ↔ liveAt w h2 := by
  unfold liveAt
  by_cases he : h2 = h
  · subst he
    rw [show (w.modifyBody h2 f).getRigidBody h2 = (w.getRigidBody h2).map f from
      getRigidBody_modify_self w h2 f]
    cases w.getRigidBody h2 <;> simp
  · rw [getRigidBody_modify_ne w f he]

theorem getRigidBody_create_ne (w : World) (bd : Body) {h2 : Nat} (hne : h2 ≠ w.nextHandle) :
    (w.createRigidBody bd).1.getRigidBody h2 = w.getRigidBody h2 := by
  show Table.lookup (w.bodies ++ [(w.nextHandle, bd)]) h2 = Table.lookup w.bodies h2
  cases hl : Table.lookup w.bodies h2 with
  | some b => exact Table.lookup_append_left hl
  | none =>
    rw [Table.lookup_append_right _ hl]
    have h1 : ¬ w.nextHandle = h2 := fun hh => hne hh.symm
    simp [Table.lookup, h1]

theorem getRigidBody_create_self {w : World} (hw : WorldWF w) (bd : Body) :
    (w.createRigidBody bd).1.getRigidBody w.nextHandle = some bd := by
  show Table.lookup (w.bodies ++ [(w.nextHandle, bd)]) w.nextHandle = _
  have hl : Table.lookup w.bodies w.nextHandle = none := by
    cases hl : Table.lookup w.bodies w.nextHandle with
    | none => rfl
    | some b => exact absurd (hw.bounded _ _ hl) (lt_irrefl _)
  rw [Table.lookup_append_right _ hl]
  simp [Table.lookup]

theorem create_nextHandle (w : World) (bd : Body) :
    (w.createRigidBody bd).1.nextHandle = w.nextHandle + 1 := rfl

theorem WorldWF.create {w : World} (hw : WorldWF w) (bd : Body) :
    WorldWF (w.createRigidBody bd).1 := by
  constructor
  · intro h2 b hb
    have hb2 : (w.createRigidBody bd).1.getRigidBody h2 = some b := hb
    show h2 < w.nextHandle + 1
    by_cases he : h2 = w.nextHandle
    · subst he
      exact Nat.lt_succ_self _
    · rw [getRigidBody_create_ne w bd he] at hb2
      exact Nat.lt_succ_of_lt (hw.bounded h2 b hb2)
  · show (Table.keys (w.bodies ++ [(w.nextHandle, bd)])).Nodup
    rw [show Table.keys (w.bodies ++ [(w.nextHandle, bd)]) =
      Table.keys w.bodies ++ [w.nextHandle] from by simp [Table.keys]]
    rw [List.nodup_append]
    refine ⟨hw.nodupKeys, List.nodup_singleton _, ?_⟩
    intro a ha hb
    have ha2 : a = w.nextHandle := by simpa using hb
    subst ha2
    obtain ⟨b0, hb0⟩ := Table.exists_lookup_of_mem_keys ha
    exact absurd (hw.bounded _ _ hb0) (lt_irrefl _)

theorem liveAt_create (w : World) (bd : Body) {h2 : Nat} (hne : h2 ≠ w.nextHandle) :
    liveAt (w.createRigidBody bd).1 h2 ↔ liveAt w h2 := by
  unfold liveAt
  rw [getRigidBody_create_ne w bd hne]

theorem getRigidBody_remove_self (w : World) (h : Nat) :
    (w.removeRigidBody h).getRigidBody h = none :=
  Table.lookup_erase_self _ _

theorem getRigidBody_remove_ne (w : World) {h h2 : Nat} (hne : h2 ≠ h) :
    (w.removeRigidBody h).getRigidBody h2 = w.getRigidBody h2 :=
  Table.lookup_erase_ne _ hne

theorem remove_nextHandle (w : World) (h : Nat) :
    (w.removeRigidBody h).nextHandle = w.nextHandle := rfl

theorem WorldWF.remove {w : World} (hw : WorldWF w) (h : Nat) :
    WorldWF (w.removeRigidBody h) := by
  constructor
  · intro h2 b hb
    have hb2 : (w.removeRigidBody h).getRigidBody h2 = some b := hb
    show h2 < w.nextHandle
    by_cases he : h2 = h
    · subst he
      rw [getRigidBody_remove_self w h2] at hb2
      exact Option.noConfusion hb2
    · rw [getRigidBody_remove_ne w he] at hb2
      exact hw.bounded h2 b hb2
  · exact Table.keys_erase_nodup _ hw.nodupKeys

theorem ForceOnly.refl (h : Nat) (w : World) : ForceOnly h w w :=
  ⟨rfl, rfl, fun _ _ => rfl, rfl⟩

theorem ForceOnly.addForce (w : World) (h : Nat) (f : Vec2) :
    ForceOnly h w (w.addForce h f) := by
  unfold World.addForce
  refine ⟨rfl, modify_keys w h _, fun h2 h2ne => getRigidBody_modify_ne w _ h2ne, ?_⟩
  rw [getRigidBody_modify_self]
  cases w.getRigidBody h <;> rfl

theorem playerForce_forceOnly (s : GameState) (w : World) (h : Nat) (e : String × Player) :
    ForceOnly h w (playerForce s w h e) := by
  unfold playerForce
  cases Table.lookup s.inputs e.1 with
  | none => exact ForceOnly.refl h w
  | some input => exact ForceOnly.addForce w h _

theorem soldierForce_forceOnly (s : GameState) (w : World) (h : Nat) (e : String × Soldier) :
    ForceOnly h w (soldierForce s w h e) := by
  unfold soldierForce
  cases Table.lookup s.units e.2.unitId with
  | none => exact ForceOnly.refl h w
  | some unit => exact ForceOnly.addForce w h _

/-! ## C1/C2: the creation loops of `syncToWorld` -/

theorem getOrCreateBody_cases (desc : Body) (w : World) (t : Table String Nat) (key : String) :
    (∃ h, Table.lookup t key = some h ∧ liveAt w h ∧
      getOrCreateBody desc w t key = (w, t, h)) ∨
    getOrCreateBody desc w t key =
      ((w.createRigidBody desc).1, Table.set t key w.nextHandle, w.nextHandle) := by
  cases hl : Table.lookup t key with
  | none =>
    right
    simp only [getOrCreateBody, hl]
    rfl
  | some h =>
    cases hb : w.getRigidBody h with
    | none =>
      right
      simp only [getOrCreateBody, hl, hb]
      rfl
    | some b =>
      left
      refine ⟨h, rfl, by simp [liveAt, hb], ?_⟩
      simp only [getOrCreateBody, hl, hb]

theorem playerSyncStep_eq (s : GameState) (a : World × WorldReferences) (e : String × Player) :
    playerSyncStep s a e =
      (playerForce s
          (((getOrCreateBody playerBodyDesc a.1 a.2.player e.1).1.setTranslation
              (getOrCreateBody playerBodyDesc a.1 a.2.player e.1).2.2 e.2.position).resetForces
            (getOrCreateBody playerBodyDesc a.1 a.2.player e.1).2.2)
          (getOrCreateBody playerBodyDesc a.1 a.2.player e.1).2.2 e,
        { player := (getOrCreateBody playerBodyDesc a.1 a.2.player e.1).2.1,
          soldier := a.2.soldier }) := rfl

theorem soldierSyncStep_eq (s : GameState) (a : World × WorldReferences) (e : String × Soldier) :
    soldierSyncStep s a e =
      (soldierForce s
          (((getOrCreateBody soldierBodyDesc a.1 a.2.soldier e.1).1.setTranslation
              (getOrCreateBody soldierBodyDesc a.1 a.2.soldier e.1).2.2 e.2.position).resetForces
            (getOrCreateBody soldierBodyDesc a.1 a.2.soldier e.1).2.2)
          (getOrCreateBody soldierBodyDesc a.1 a.2.soldier e.1).2.2 e,
        { player := a.2.player,
          soldier := (getOrCreateBody soldierBodyDesc a.1 a.2.soldier e.1).2.1 }) := rfl

theorem playerSyncStep_reuse (s : GameState) (a : World × WorldReferences) (e : String × Player)
    {h : Nat} (hoc : getOrCreateBody playerBodyDesc a.1 a.2.player e.1 = (a.1, a.2.player, h)) :
    playerSyncStep s a e =
      (playerForce s ((a.1.setTranslation h e.2.position).resetForces h) h e, a.2) := by
  have h1 := playerSyncStep_eq s a e
  rw [hoc] at h1
  exact h1

theorem playerSyncStep_create (s : GameState) (a : World × WorldReferences) (e : String × Player)
    (hoc : getOrCreateBody playerBodyDesc a.1 a.2.player e.1 =
      ((a.1.createRigidBody playerBodyDesc).1, Table.set a.2.player e.1 a.1.nextHandle,
        a.1.nextHandle)) :
    playerSyncStep s a e =
      (playerForce s
          (((a.1.createRigidBody playerBodyDesc).1.setTranslation a.1.nextHandle
              e.2.position).resetForces a.1.nextHandle)
          a.1.nextHandle e,
        { player := Table.set a.2.player e.1 a.1.nextHandle, soldier := a.2.soldier }) := by
  have h1 := playerSyncStep_eq s a e
  rw [hoc] at h1
  exact h1

theorem soldierSyncStep_reuse (s : GameState) (a : World × WorldReferences) (e : String × Soldier)
    {h : Nat} (hoc : getOrCreateBody soldierBodyDesc a.1 a.2.soldier e.1 = (a.1, a.2.soldier, h)) :
    soldierSyncStep s a e =
      (soldierForce s ((a.1.setTranslation h e.2.position).resetForces h) h e, a.2) := by
  have h1 := soldierSyncStep_eq s a e
  rw [hoc] at h1
  exact h1

theorem soldierSyncStep_create (s : GameState) (a : World × WorldReferences) (e : String × Soldier)
    (hoc : getOrCreateBody soldierBodyDesc a.1 a.2.soldier e.1 =
      ((a.1.createRigidBody soldierBodyDesc).1, Table.set a.2.soldier e.1 a.1.nextHandle,
        a.1.nextHandle)) :
    soldierSyncStep s a e =
      (soldierForce s
          (((a.1.createRigidBody soldierBodyDesc).1.setTranslation a.1.nextHandle
              e.2.position).resetForces a.1.nextHandle)
          a.1.nextHandle e,
        { player := a.2.player, soldier := Table.set a.2.soldier e.1 a.1.nextHandle }) := by
  have h1 := soldierSyncStep_eq s a e
  rw [hoc] at h1
  exact h1

theorem wroteAt_writes (w : World) (h : Nat) (pos : Vec2) (hl : liveAt w h)
    (w3 : World) (fo : ForceOnly h ((w.setTranslation h pos).resetForces h) w3) :
    WroteAt h pos w w3 := by
  obtain ⟨b0, hb0⟩ := Option.isSome_iff_exists.mp hl
  have hw2h : ((w.setTranslation h pos).resetForces h).getRigidBody h =
      some { b0 with translation := pos, force := origo } := by
    unfold World.setTranslation World.resetForces
    rw [getRigidBody_modify_self, getRigidBody_modify_self, hb0]
    rfl
  have hw2ne : ∀ h2, h2 ≠ h → ((w.setTranslation h pos).resetForces h).getRigidBody h2 =
      w.getRigidBody h2 := by
    intro h2 hne
    unfold World.setTranslation World.resetForces
    rw [getRigidBody_modify_ne _ _ hne, getRigidBody_modify_ne _ _ hne]
  refine ⟨fo.1.trans rfl, ?_, ?_⟩
  · intro h2 hne
    rw [fo.2.2.1 h2 hne, hw2ne h2 hne]
  · have hmap := fo.2.2.2
    rw [hw2h] at hmap
    cases hb3 : w3.getRigidBody h with
    | none =>
      rw [hb3] at hmap
      exact absurd hmap (by simp)
    | some b3 =>
      rw [hb3] at hmap
      have h5 : (fun b => { b with force := origo : Body }) b3 =
          (fun b => { b with force := origo : Body }) { b0 with translation := pos, force := origo } :=
        Option.some.inj hmap
      have h6 : b3.translation = pos := congrArg Body.translation h5
      exact ⟨b3, rfl, h6⟩

theorem writeStep_wf (w : World) (h : Nat) (pos : Vec2) (hw : WorldWF w) :
    WorldWF ((w.setTranslation h pos).resetForces h) :=
  (hw.modify h (fun b => { b with translation := pos })).modify h
    (fun b => { b with force := origo })

theorem playerForce_wf (s : GameState) (w : World) (h : Nat) (e : String × Player)
    (hw : WorldWF w) : WorldWF (playerForce s w h e) := by
  unfold playerForce
  cases Table.lookup s.inputs e.1 with
  | none => exact hw
  | some input => exact hw.modify h _

theorem soldierForce_wf (s : GameState) (w : World) (h : Nat) (e : String × Soldier)
    (hw : WorldWF w) : WorldWF (soldierForce s w h e) := by
  unfold soldierForce
  cases Table.lookup s.units e.2.unitId with
  | none => exact hw
  | some unit => exact hw.modify h _

theorem WroteAt.live_iff {h : Nat} {pos : Vec2} {w w2 : World} (hwr : WroteAt h pos w w2)
    (hl : liveAt w h) (h2 : Nat) : liveAt w2 h2 ↔ liveAt w h2 := by
  by_cases he : h2 = h
  · subst he
    obtain ⟨b, hb, -⟩ := hwr.2.2
    constructor
    · intro _
      exact hl
    · intro _
      simp [liveAt, hb]
  · unfold liveAt
    rw [hwr.2.1 h2 he]

theorem RefsWF.sameTables {w w2 : World} {refs : WorldReferences} (hr : RefsWF w refs)
    (hn : w2.nextHandle = w.nextHandle) (hlive : ∀ h2, liveAt w2 h2 ↔ liveAt w h2) :
    RefsWF w2 refs := by
  constructor
  · exact hr.playerNodup
  · exact hr.soldierNodup
  · intro pid h hl
    rw [hn]
    exact hr.playerBounded pid h hl
  · intro sid h hl
    rw [hn]
    exact hr.soldierBounded sid h hl
  · intro p1 p2 h h1 h2 hl
    exact hr.playerInj p1 p2 h h1 h2 ((hlive h).mp hl)
  · intro s1 s2 h h1 h2 hl
    exact hr.soldierInj s1 s2 h h1 h2 ((hlive h).mp hl)
  · intro pid sid h h1 h2 hl
    exact hr.cross pid sid h h1 h2 ((hlive h).mp hl)

theorem RefsWF.createPlayerTable {w : World} {refs : WorldReferences} (hw : WorldWF w)
    (hr : RefsWF w refs) (key : String) (bd : Body) :
    RefsWF (w.createRigidBody bd).1
      { player := Table.set refs.player key w.nextHandle, soldier := refs.soldier } := by
  have hb : ∀ {pid h}, Table.lookup (Table.set refs.player key w.nextHandle) pid = some h →
      pid = key ∧ h = w.nextHandle ∨ pid ≠ key ∧ Table.lookup refs.player pid = some h := by
    intro pid h hl
    by_cases he : pid = key
    · subst he
      rw [Table.lookup_set_self] at hl
      exact Or.inl ⟨rfl, (Option.some.inj hl).symm⟩
    · rw [Table.lookup_set_ne _ _ he] at hl
      exact Or.inr ⟨he, hl⟩
  constructor
  · exact Table.keys_set_nodup _ _ hr.playerNodup
  · exact hr.soldierNodup
  · intro pid h hl
    rw [create_nextHandle]
    rcases hb hl with ⟨-, rfl⟩ | ⟨-, hl2⟩
    · exact Nat.lt_succ_self _
    · exact Nat.lt_succ_of_lt (hr.playerBounded pid h hl2)
  · intro sid h hl
    rw [create_nextHandle]
    exact Nat.lt_succ_of_lt (hr.soldierBounded sid h hl)
  · intro p1 p2 h h1 h2 hl
    rcases hb h1 with ⟨he1, rfl⟩ | ⟨hne1, h1l⟩
    · rcases hb h2 with ⟨he2, -⟩ | ⟨hne2, h2l⟩
      · exact he1.trans he2.symm
      · exact absurd (hr.playerBounded p2 _ h2l) (lt_irrefl _)
    · rcases hb h2 with ⟨he2, rfl⟩ | ⟨hne2, h2l⟩
      · exact absurd (hr.playerBounded p1 _ h1l) (lt_irrefl _)
      · have hlt := hr.playerBounded p1 h h1l
        have hll := (liveAt_create w bd (Nat.ne_of_lt hlt)).mp hl
        exact hr.playerInj p1 p2 h h1l h2l hll
  · intro s1 s2 h h1 h2 hl
    have hlt := hr.soldierBounded s1 h h1
    have hll := (liveAt_create w bd (Nat.ne_of_lt hlt)).mp hl
    exact hr.soldierInj s1 s2 h h1 h2 hll
  · intro pid sid h h1 h2 hl
    have hlt := hr.soldierBounded sid h h2
    rcases hb h1 with ⟨-, rfl⟩ | ⟨hne1, h1l⟩
    · exact absurd hlt (lt_irrefl _)
    · have hll := (liveAt_create w bd (Nat.ne_of_lt hlt)).mp hl
      exact hr.cross pid sid h h1l h2 hll

theorem RefsWF.createSoldierTable {w : World} {refs : WorldReferences} (hw : WorldWF w)
    (hr : RefsWF w refs) (key : String) (bd : Body) :
    RefsWF (w.createRigidBody bd).1
      { player := refs.player, soldier := Table.set refs.soldier key w.nextHandle } := by
  have hb : ∀ {sid h}, Table.lookup (Table.set refs.soldier key w.nextHandle) sid = some h →
      sid = key ∧ h = w.nextHandle ∨ sid ≠ key ∧ Table.lookup refs.soldier sid = some h := by
    intro sid h hl
    by_cases he : sid = key
    · subst he
      rw [Table.lookup_set_self] at hl
      exact Or.inl ⟨rfl, (Option.some.inj hl).symm⟩
    · rw [Table.lookup_set_ne _ _ he] at hl
      exact Or.inr ⟨he, hl⟩
  constructor
  · exact hr.playerNodup
  · exact Table.keys_set_nodup _ _ hr.soldierNodup
  · intro pid h hl
    rw [create_nextHandle]
    exact Nat.lt_succ_of_lt (hr.playerBounded pid h hl)
  · intro sid h hl
    rw [create_nextHandle]
    rcases hb hl with ⟨-, rfl⟩ | ⟨-, hl2⟩
    · exact Nat.lt_succ_self _
    · exact Nat.lt_succ_of_lt (hr.soldierBounded sid h hl2)
  · intro p1 p2 h h1 h2 hl
    have hlt := hr.playerBounded p1 h h1
    have hll := (liveAt_create w bd (Nat.ne_of_lt hlt)).mp hl
    exact hr.playerInj p1 p2 h h1 h2 hll
  · intro s1 s2 h h1 h2 hl
    rcases hb h1 with ⟨he1, rfl⟩ | ⟨hne1, h1l⟩
    · rcases hb h2 with ⟨he2, -⟩ | ⟨hne2, h2l⟩
      · exact he1.trans he2.symm
      · exact absurd (hr.soldierBounded s2 _ h2l) (lt_irrefl _)
    · rcases hb h2 with ⟨he2, rfl⟩ | ⟨hne2, h2l⟩
      · exact absurd (hr.soldierBounded s1 _ h1l) (lt_irrefl _)
      · have hlt := hr.soldierBounded s1 h h1l
        have hll := (liveAt_create w bd (Nat.ne_of_lt hlt)).mp hl
        exact hr.soldierInj s1 s2 h h1l h2l hll
  · intro pid sid h h1 h2 hl
    have hlt := hr.playerBounded pid h h1
    rcases hb h2 with ⟨-, rfl⟩ | ⟨hne2, h2l⟩
    · exact absurd hlt (lt_irrefl _)
    · have hll := (liveAt_create w bd (Nat.ne_of_lt hlt)).mp hl
      exact hr.cross pid sid h h1 h2l hll

theorem playerSyncStep_spec (s : GameState) (a : World × WorldReferences) (e : String × Player)
    (hw : WorldWF a.1) (hr : RefsWF a.1 a.2) :
    WorldWF (playerSyncStep s a e).1 ∧
    RefsWF (playerSyncStep s a e).1 (playerSyncStep s a e).2 ∧
    (playerSyncStep s a e).2.soldier = a.2.soldier ∧
    PlayerPlaced (playerSyncStep s a e) e.1 e.2.position ∧
    (∀ pid pos, pid ≠ e.1 → PlayerPlaced a pid pos →
      PlayerPlaced (playerSyncStep s a e) pid pos) ∧
    (∀ sid pos, SoldierPlaced a sid pos → SoldierPlaced (playerSyncStep s a e) sid pos) ∧
    (∀ pid, pid ≠ e.1 →
      Table.lookup (playerSyncStep s a e).2.player pid = Table.lookup a.2.player pid) := by
  rcases getOrCreateBody_cases playerBodyDesc a.1 a.2.player e.1 with ⟨h, hlk, hlive, hoc⟩ | hoc
  · rw [playerSyncStep_reuse s a e hoc]
    have fo := playerForce_forceOnly s ((a.1.setTranslation h e.2.position).resetForces h) h e
    have hwr := wroteAt_writes a.1 h e.2.position hlive _ fo
    have hwf2 := writeStep_wf a.1 h e.2.position hw
    have hwf3 := playerForce_wf s _ h e hwf2
    refine ⟨hwf3, ?_, rfl, ?_, ?_, ?_, fun pid hne => rfl⟩
    · exact RefsWF.sameTables hr hwr.1 (fun h2 => hwr.live_iff hlive h2)
    · obtain ⟨b, hb, htr⟩ := hwr.2.2
      exact ⟨h, b, hlk, hb, htr⟩
    · intro pid pos hne hp
      obtain ⟨h0, b0, hl0, hb0, ht0⟩ := hp
      have hne0 : h0 ≠ h := by
        intro hEq
        subst hEq
        exact hne (hr.playerInj pid e.1 h0 hl0 hlk hlive)
      refine ⟨h0, b0, hl0, ?_, ht0⟩
      rw [hwr.2.1 h0 hne0]
      exact hb0
    · intro sid pos hp
      obtain ⟨h0, b0, hl0, hb0, ht0⟩ := hp
      have hne0 : h0 ≠ h := by
        intro hEq
        subst hEq
        exact hr.cross e.1 sid h0 hlk hl0 hlive
      refine ⟨h0, b0, hl0, ?_, ht0⟩
      rw [hwr.2.1 h0 hne0]
      exact hb0
  · rw [playerSyncStep_create s a e hoc]
    have hwc : WorldWF (a.1.createRigidBody playerBodyDesc).1 := hw.create playerBodyDesc
    have hlivec : liveAt (a.1.createRigidBody playerBodyDesc).1 a.1.nextHandle := by
      simp [liveAt, getRigidBody_create_self hw playerBodyDesc]
    have fo := playerForce_forceOnly s
      (((a.1.createRigidBody playerBodyDesc).1.setTranslation a.1.nextHandle
        e.2.position).resetForces a.1.nextHandle) a.1.nextHandle e
    have hwr := wroteAt_writes (a.1.createRigidBody playerBodyDesc).1 a.1.nextHandle
      e.2.position hlivec _ fo
    have hwf2 := writeStep_wf (a.1.createRigidBody playerBodyDesc).1 a.1.nextHandle
      e.2.position hwc
    have hwf3 := playerForce_wf s _ a.1.nextHandle e hwf2
    have hrc : RefsWF (a.1.createRigidBody playerBodyDesc).1
        { player := Table.set a.2.player e.1 a.1.nextHandle, soldier := a.2.soldier } :=
      RefsWF.createPlayerTable hw hr e.1 playerBodyDesc
    refine ⟨hwf3, ?_, rfl, ?_, ?_, ?_, ?_⟩
    · exact RefsWF.sameTables hrc hwr.1 (fun h2 => hwr.live_iff hlivec h2)
    · obtain ⟨b, hb, htr⟩ := hwr.2.2
      exact ⟨a.1.nextHandle, b, Table.lookup_set_self _ _ _, hb, htr⟩
    · intro pid pos hne hp
      obtain ⟨h0, b0, hl0, hb0, ht0⟩ := hp
      have hlt : h0 < a.1.nextHandle := hw.bounded h0 b0 hb0
      have hne0 : h0 ≠ a.1.nextHandle := Nat.ne_of_lt hlt
      refine ⟨h0, b0, ?_, ?_, ht0⟩
      · rw [Table.lookup_set_ne _ _ hne]
        exact hl0
      · rw [hwr.2.1 h0 hne0, getRigidBody_create_ne a.1 playerBodyDesc hne0]
        exact hb0
    · intro sid pos hp
      obtain ⟨h0, b0, hl0, hb0, ht0⟩ := hp
      have hlt : h0 < a.1.nextHandle := hw.bounded h0 b0 hb0
      have hne0 : h0 ≠ a.1.nextHandle := Nat.ne_of_lt hlt
      refine ⟨h0, b0, hl0, ?_, ht0⟩
      rw [hwr.2.1 h0 hne0, getRigidBody_create_ne a.1 playerBodyDesc hne0]
      exact hb0
    · intro pid hne
      exact Table.lookup_set_ne _ _ hne

theorem soldierSyncStep_spec (s : GameState) (a : World × WorldReferences) (e : String × Soldier)
    (hw : WorldWF a.1) (hr : RefsWF a.1 a.2) :
    WorldWF (soldierSyncStep s a e).1 ∧
    RefsWF (soldierSyncStep s a e).1 (soldierSyncStep s a e).2 ∧
    (soldierSyncStep s a e).2.player = a.2.player ∧
    SoldierPlaced (soldierSyncStep s a e) e.1 e.2.position ∧
    (∀ sid pos, sid ≠ e.1 → SoldierPlaced a sid pos →
      SoldierPlaced (soldierSyncStep s a e) sid pos) ∧
    (∀ pid pos, PlayerPlaced a pid pos → PlayerPlaced (soldierSyncStep s a e) pid pos) := by
  rcases getOrCreateBody_cases soldierBodyDesc a.1 a.2.soldier e.1 with ⟨h, hlk, hlive, hoc⟩ | hoc
  · rw [soldierSyncStep_reuse s a e hoc]
    have fo := soldierForce_forceOnly s ((a.1.setTranslation h e.2.position).resetForces h) h e
    have hwr := wroteAt_writes a.1 h e.2.position hlive _ fo
    have hwf2 := writeStep_wf a.1 h e.2.position hw
    have hwf3 := soldierForce_wf s _ h e hwf2
    refine ⟨hwf3, ?_, rfl, ?_, ?_, ?_⟩
    · exact RefsWF.sameTables hr hwr.1 (fun h2 => hwr.live_iff hlive h2)
    · obtain ⟨b, hb, htr⟩ := hwr.2.2
      exact ⟨h, b, hlk, hb, htr⟩
    · intro sid pos hne hp
      obtain ⟨h0, b0, hl0, hb0, ht0⟩ := hp
      have hne0 : h0 ≠ h := by
        intro hEq
        subst hEq
        exact hne (hr.soldierInj sid e.1 h0 hl0 hlk hlive)
      refine ⟨h0, b0, hl0, ?_, ht0⟩
      rw [hwr.2.1 h0 hne0]
      exact hb0
    · intro pid pos hp
      obtain ⟨h0, b0, hl0, hb0, ht0⟩ := hp
      have hne0 : h0 ≠ h := by
        intro hEq
        subst hEq
        exact hr.cross pid e.1 h0 hl0 hlk hlive
      refine ⟨h0, b0, hl0, ?_, ht0⟩
      rw [hwr.2.1 h0 hne0]
      exact hb0
  · rw [soldierSyncStep_create s a e hoc]
    have hwc : WorldWF (a.1.createRigidBody soldierBodyDesc).1 := hw.create soldierBodyDesc
    have hlivec : liveAt (a.1.createRigidBody soldierBodyDesc).1 a.1.nextHandle := by
      simp [liveAt, getRigidBody_create_self hw soldierBodyDesc]
    have fo := soldierForce_forceOnly s
      (((a.1.createRigidBody soldierBodyDesc).1.setTranslation a.1.nextHandle
        e.2.position).resetForces a.1.nextHandle) a.1.nextHandle e
    have hwr := wroteAt_writes (a.1.createRigidBody soldierBodyDesc).1 a.1.nextHandle
      e.2.position hlivec _ fo
    have hwf2 := writeStep_wf (a.1.createRigidBody soldierBodyDesc).1 a.1.nextHandle
      e.2.position hwc
    have hwf3 := soldierForce_wf s _ a.1.nextHandle e hwf2
    have hrc : RefsWF (a.1.createRigidBody soldierBodyDesc).1
        { player := a.2.player, soldier := Table.set a.2.soldier e.1 a.1.nextHandle } :=
      RefsWF.createSoldierTable hw hr e.1 soldierBodyDesc
    refine ⟨hwf3, ?_, rfl, ?_, ?_, ?_⟩
    · exact RefsWF.sameTables hrc hwr.1 (fun h2 => hwr.live_iff hlivec h2)
    · obtain ⟨b, hb, htr⟩ := hwr.2.2
      exact ⟨a.1.nextHandle, b, Table.lookup_set_self _ _ _, hb, htr⟩
    · intro sid pos hne hp
      obtain ⟨h0, b0, hl0, hb0, ht0⟩ := hp
      have hlt : h0 < a.1.nextHandle := hw.bounded h0 b0 hb0
      have hne0 : h0 ≠ a.1.nextHandle := Nat.ne_of_lt hlt
      refine ⟨h0, b0, ?_, ?_, ht0⟩
      · rw [Table.lookup_set_ne _ _ hne]
        exact hl0
      · rw [hwr.2.1 h0 hne0, getRigidBody_create_ne a.1 soldierBodyDesc hne0]
        exact hb0
    · intro pid pos hp
      obtain ⟨h0, b0, hl0, hb0, ht0⟩ := hp
      have hlt : h0 < a.1.nextHandle := hw.bounded h0 b0 hb0
      have hne0 : h0 ≠ a.1.nextHandle := Nat.ne_of_lt hlt
      refine ⟨h0, b0, hl0, ?_, ht0⟩
      rw [hwr.2.1 h0 hne0, getRigidBody_create_ne a.1 soldierBodyDesc hne0]
      exact hb0

theorem foldl_preserves_mem {β γ : Type} {step : β → γ → β} {P : β → Prop} :
    ∀ (l : List γ), (∀ b c, c ∈ l → P b → P (step b c)) → ∀ {b : β}, P b → P (l.foldl step b) := by
  intro l
  induction l with
  | nil =>
    intro _ b h
    exact h
  | cons c rest ih =>
    intro hstep b h
    exact ih (fun b2 c2 hc2 => hstep b2 c2 (List.mem_cons_of_mem _ hc2))
      (hstep b c (List.mem_cons_self _ _) h)

theorem mem_split {α : Type} {a : α} {l : List α} (h : a ∈ l) :
    ∃ l1 l2, l = l1 ++ a :: l2 := by
  induction l with
  | nil => cases h
  | cons b rest ih =>
    rcases List.mem_cons.mp h with rfl | h2
    · exact ⟨[], rest, rfl⟩
    · obtain ⟨l1, l2, hl⟩ := ih h2
      exact ⟨b :: l1, l2, by rw [hl, List.cons_append]⟩

theorem playersLoop_spec (s : GameState) :
    ∀ (es : Table String Player) (a : World × WorldReferences),
      (Table.keys es).Nodup → WorldWF a.1 → RefsWF a.1 a.2 →
      WorldWF (es.foldl (playerSyncStep s) a).1 ∧
      RefsWF (es.foldl (playerSyncStep s) a).1 (es.foldl (playerSyncStep s) a).2 ∧
      (es.foldl (playerSyncStep s) a).2.soldier = a.2.soldier ∧
      (∀ e ∈ es, PlayerPlaced (es.foldl (playerSyncStep s) a) e.1 e.2.position) ∧
      (∀ pid pos, pid ∉ Table.keys es → PlayerPlaced a pid pos →
        PlayerPlaced (es.foldl (playerSyncStep s) a) pid pos) ∧
      (∀ sid pos, SoldierPlaced a sid pos →
        SoldierPlaced (es.foldl (playerSyncStep s) a) sid pos) ∧
      (∀ pid, pid ∉ Table.keys es →
        Table.lookup (es.foldl (playerSyncStep s) a).2.player pid =
          Table.lookup a.2.player pid) := by
  intro es
  induction es with
  | nil =>
    intro a hnd hw hr
    exact ⟨hw, hr, rfl, fun e he => absurd he (List.not_mem_nil e),
      fun pid pos h hp => hp, fun sid pos hp => hp, fun pid h => rfl⟩
  | cons e rest ih =>
    intro a hnd hw hr
    have hnd2 : e.1 ∉ Table.keys rest ∧ (Table.keys rest).Nodup := by
      simpa [Table.keys] using hnd
    obtain ⟨swf, srefs, ssold, splace, skeepP, skeepS, slook⟩ := playerSyncStep_spec s a e hw hr
    obtain ⟨h1, h2, h3, h4, h5, h6, h7⟩ := ih (playerSyncStep s a e) hnd2.2 swf srefs
    simp only [List.foldl_cons]
    refine ⟨h1, h2, h3.trans ssold, ?_, ?_, ?_, ?_⟩
    · intro e2 he2
      rcases List.mem_cons.mp he2 with heq | he2
      · rw [heq]
        exact h5 e.1 e.2.position hnd2.1 splace
      · exact h4 e2 he2
    · intro pid pos hpid hp
      have hne : pid ≠ e.1 := by
        intro hEq
        exact hpid (by simp [Table.keys, hEq])
      have hrest : pid ∉ Table.keys rest := by
        intro hm
        exact hpid (by simp [Table.keys] at hm ⊢; exact Or.inr hm)
      exact h5 pid pos hrest (skeepP pid pos hne hp)
    · intro sid pos hp
      exact h6 sid pos (skeepS sid pos hp)
    · intro pid hpid
      have hne : pid ≠ e.1 := by
        intro hEq
        exact hpid (by simp [Table.keys, hEq])
      have hrest : pid ∉ Table.keys rest := by
        intro hm
        exact hpid (by simp [Table.keys] at hm ⊢; exact Or.inr hm)
      rw [h7 pid hrest, slook pid hne]

theorem soldiersLoop_spec (s : GameState) :
    ∀ (es : Table String Soldier) (a : World × WorldReferences),
      (Table.keys es).Nodup → WorldWF a.1 → RefsWF a.1 a.2 →
      WorldWF (es.foldl (soldierSyncStep s) a).1 ∧
      RefsWF (es.foldl (soldierSyncStep s) a).1 (es.foldl (soldierSyncStep s) a).2 ∧
      (es.foldl (soldierSyncStep s) a).2.player = a.2.player ∧
      (∀ e ∈ es, SoldierPlaced (es.foldl (soldierSyncStep s) a) e.1 e.2.position) ∧
      (∀ sid pos, sid ∉ Table.keys es → SoldierPlaced a sid pos →
        SoldierPlaced (es.foldl (soldierSyncStep s) a) sid pos) ∧
      (∀ pid pos, PlayerPlaced a pid pos →
        PlayerPlaced (es.foldl (soldierSyncStep s) a) pid pos) := by
  intro es
  induction es with
  | nil =>
    intro a hnd hw hr
    exact ⟨hw, hr, rfl, fun e he => absurd he (List.not_mem_nil e),
      fun sid pos h hp => hp, fun pid pos hp => hp⟩
  | cons e rest ih =>
    intro a hnd hw hr
    have hnd2 : e.1 ∉ Table.keys rest ∧ (Table.keys rest).Nodup := by
      simpa [Table.keys] using hnd
    obtain ⟨swf, srefs, splay, splace, skeepS, skeepP⟩ := soldierSyncStep_spec s a e hw hr
    obtain ⟨h1, h2, h3, h4, h5, h6⟩ := ih (soldierSyncStep s a e) hnd2.2 swf srefs
    simp only [List.foldl_cons]
    refine ⟨h1, h2, h3.trans splay, ?_, ?_, ?_⟩
    · intro e2 he2
      rcases List.mem_cons.mp he2 with heq | he2
      · rw [heq]
        exact h5 e.1 e.2.position hnd2.1 splace
      · exact h4 e2 he2
    · intro sid pos hsid hp
      have hne : sid ≠ e.1 := by
        intro hEq
        exact hsid (by simp [Table.keys, hEq])
      have hrest : sid ∉ Table.keys rest := by
        intro hm
        exact hsid (by simp [Table.keys] at hm ⊢; exact Or.inr hm)
      exact h5 sid pos hrest (skeepS sid pos hne hp)
    · intro pid pos hp
      exact h6 pid pos (skeepP pid pos hp)

/-! ## C1/C2: the reconciliation loops of `syncToWorld` -/

theorem getRigidBody_remove_none (w : World) (h h2 : Nat) (hn : w.getRigidBody h2 = none) :
    (w.removeRigidBody h).getRigidBody h2 = none := by
  by_cases he : h2 = h
  · subst he
    exact getRigidBody_remove_self w h2
  · rw [getRigidBody_remove_ne w he]
    exact hn

theorem Table.lookup_erase_none {κ α : Type} [DecidableEq κ] {t : Table κ α} (k : κ) {k2 : κ}
    (hn : Table.lookup t k2 = none) : Table.lookup (Table.erase t k) k2 = none := by
  by_cases he : k2 = k
  · subst he
    exact Table.lookup_erase_self t k2
  · rw [Table.lookup_erase_ne t he]
    exact hn

theorem reconcilePlayerStep_pos (s : GameState) (a : World × WorldReferences) (e : String × Nat)
    (hc : Table.contains s.players e.1 = true) : reconcilePlayerStep s a e = a := by
  unfold reconcilePlayerStep
  rw [if_pos hc]

theorem reconcilePlayerStep_neg (s : GameState) (a : World × WorldReferences) (e : String × Nat)
    (hc : Table.contains s.players e.1 = false) :
    reconcilePlayerStep s a e =
      ((match a.1.getRigidBody e.2 with
        | some _ => a.1.removeRigidBody e.2
        | none => a.1),
       { player := Table.erase a.2.player e.1, soldier := a.2.soldier }) := by
  unfold reconcilePlayerStep
  rw [if_neg (by simp [hc])]

theorem reconcileSoldierStep_pos (s : GameState) (a : World × WorldReferences) (e : String × Nat)
    (hc : Table.contains s.soldiers e.1 = true) : reconcileSoldierStep s a e = a := by
  unfold reconcileSoldierStep
  rw [if_pos hc]

theorem reconcileSoldierStep_neg (s : GameState) (a : World × WorldReferences) (e : String × Nat)
    (hc : Table.contains s.soldiers e.1 = false) :
    reconcileSoldierStep s a e =
      ((match a.1.getRigidBody e.2 with
        | some _ => a.1.removeRigidBody e.2
        | none => a.1),
       { player := a.2.player, soldier := Table.erase a.2.soldier e.1 }) := by
  unfold reconcileSoldierStep
  rw [if_neg (by simp [hc])]

theorem reconcilePlayerStep_body (s : GameState) (a : World × WorldReferences) (e : String × Nat)
    {h : Nat} {b : Body} (hb : a.1.getRigidBody h = some b)
    (hne : Table.contains s.players e.1 = false → e.2 ≠ h) :
    (reconcilePlayerStep s a e).1.getRigidBody h = some b := by
  cases hc : Table.contains s.players e.1 with
  | true =>
    rw [reconcilePlayerStep_pos s a e hc]
    exact hb
  | false =>
    rw [reconcilePlayerStep_neg s a e hc]
    cases hbe : a.1.getRigidBody e.2 with
    | some b2 =>
      show (a.1.removeRigidBody e.2).getRigidBody h = some b
      rw [getRigidBody_remove_ne a.1 (fun hEq => hne hc hEq.symm)]
      exact hb
    | none =>
      show a.1.getRigidBody h = some b
      exact hb

theorem reconcileSoldierStep_body (s : GameState) (a : World × WorldReferences) (e : String × Nat)
    {h : Nat} {b : Body} (hb : a.1.getRigidBody h = some b)
    (hne : Table.contains s.soldiers e.1 = false → e.2 ≠ h) :
    (reconcileSoldierStep s a e).1.getRigidBody h = some b := by
  cases hc : Table.contains s.soldiers e.1 with
  | true =>
    rw [reconcileSoldierStep_pos s a e hc]
    exact hb
  | false =>
    rw [reconcileSoldierStep_neg s a e hc]
    cases hbe : a.1.getRigidBody e.2 with
    | some b2 =>
      show (a.1.removeRigidBody e.2).getRigidBody h = some b
      rw [getRigidBody_remove_ne a.1 (fun hEq => hne hc hEq.symm)]
      exact hb
    | none =>
      show a.1.getRigidBody h = some b
      exact hb

theorem reconcilePlayerStep_table (s : GameState) (a : World × WorldReferences) (e : String × Nat)
    {pid : String} (hpid : Table.contains s.players pid = true) :
    Table.lookup (reconcilePlayerStep s a e).2.player pid = Table.lookup a.2.player pid := by
  cases hc : Table.contains s.players e.1 with
  | true => rw [reconcilePlayerStep_pos s a e hc]
  | false =>
    rw [reconcilePlayerStep_neg s a e hc]
    have hne : pid ≠ e.1 := by
      intro hEq
      rw [hEq] at hpid
      rw [hpid] at hc
      exact Bool.noConfusion hc
    exact Table.lookup_erase_ne _ hne

theorem reconcileSoldierStep_table (s : GameState) (a : World × WorldReferences)
    (e : String × Nat) {sid : String} (hsid : Table.contains s.soldiers sid = true) :
    Table.lookup (reconcileSoldierStep s a e).2.soldier sid = Table.lookup a.2.soldier sid := by
  cases hc : Table.contains s.soldiers e.1 with
  | true => rw [reconcileSoldierStep_pos s a e hc]
  | false =>
    rw [reconcileSoldierStep_neg s a e hc]
    have hne : sid ≠ e.1 := by
      intro hEq
      rw [hEq] at hsid
      rw [hsid] at hc
      exact Bool.noConfusion hc
    exact Table.lookup_erase_ne _ hne

theorem reconcilePlayerStep_soldier (s : GameState) (a : World × WorldReferences)
    (e : String × Nat) : (reconcilePlayerStep s a e).2.soldier = a.2.soldier := by
  cases hc : Table.contains s.players e.1 with
  | true => rw [reconcilePlayerStep_pos s a e hc]
  | false => rw [reconcilePlayerStep_neg s a e hc]

theorem reconcileSoldierStep_player (s : GameState) (a : World × WorldReferences)
    (e : String × Nat) : (reconcileSoldierStep s a e).2.player = a.2.player := by
  cases hc : Table.contains s.soldiers e.1 with
  | true => rw [reconcileSoldierStep_pos s a e hc]
  | false => rw [reconcileSoldierStep_neg s a e hc]

theorem reconcilePlayerStep_none (s : GameState) (a : World × WorldReferences) (e : String × Nat)
    (h : Nat) (pid : String) (hb : a.1.getRigidBody h = none)
    (hp : Table.lookup a.2.player pid = none) :
    (reconcilePlayerStep s a e).1.getRigidBody h = none ∧
    Table.lookup (reconcilePlayerStep s a e).2.player pid = none := by
  cases hc : Table.contains s.players e.1 with
  | true =>
    rw [reconcilePlayerStep_pos s a e hc]
    exact ⟨hb, hp⟩
  | false =>
    rw [reconcilePlayerStep_neg s a e hc]
    constructor
    · cases hbe : a.1.getRigidBody e.2 with
      | some b2 =>
        show (a.1.removeRigidBody e.2).getRigidBody h = none
        exact getRigidBody_remove_none a.1 e.2 h hb
      | none =>
        show a.1.getRigidBody h = none
        exact hb
    · exact Table.lookup_erase_none e.1 hp

theorem reconcileSoldierStep_none (s : GameState) (a : World × WorldReferences) (e : String × Nat)
    (h : Nat) (pid : String) (hb : a.1.getRigidBody h = none)
    (hp : Table.lookup a.2.player pid = none) :
    (reconcileSoldierStep s a e).1.getRigidBody h = none ∧
    Table.lookup (reconcileSoldierStep s a e).2.player pid = none := by
  cases hc : Table.contains s.soldiers e.1 with
  | true =>
    rw [reconcileSoldierStep_pos s a e hc]
    exact ⟨hb, hp⟩
  | false =>
    rw [reconcileSoldierStep_neg s a e hc]
    constructor
    · cases hbe : a.1.getRigidBody e.2 with
      | some b2 =>
        show (a.1.removeRigidBody e.2).getRigidBody h = none
        exact getRigidBody_remove_none a.1 e.2 h hb
      | none =>
        show a.1.getRigidBody h = none
        exact hb
    · exact hp

theorem reconcilePlayerStep_removes (s : GameState) (a : World × WorldReferences)
    (e : String × Nat) (hc : Table.contains s.players e.1 = false) :
    Table.lookup (reconcilePlayerStep s a e).2.player e.1 = none ∧
    (reconcilePlayerStep s a e).1.getRigidBody e.2 = none := by
  rw [reconcilePlayerStep_neg s a e hc]
  constructor
  · exact Table.lookup_erase_self _ _
  · cases hbe : a.1.getRigidBody e.2 with
    | some b2 =>
      show (a.1.removeRigidBody e.2).getRigidBody e.2 = none
      exact getRigidBody_remove_self a.1 e.2
    | none =>
      show a.1.getRigidBody e.2 = none
      exact hbe

theorem reconcilePlayerLoop_soldierEq (s : GameState) (es : List (String × Nat))
    (a : World × WorldReferences) :
    (es.foldl (reconcilePlayerStep s) a).2.soldier = a.2.soldier := by
  refine foldl_preserves (P := fun acc : World × WorldReferences =>
      acc.2.soldier = a.2.soldier) ?_ es rfl
  intro a2 e hpres
  exact (reconcilePlayerStep_soldier s a2 e).trans hpres

theorem reconcilePlayerLoop_keep (s : GameState) (es : List (String × Nat))
    (pid : String) (h : Nat) (b : Body)
    (hin : Table.contains s.players pid = true)
    (hdis : ∀ e ∈ es, Table.contains s.players e.1 = false → e.2 ≠ h)
    (a : World × WorldReferences)
    (hlk : Table.lookup a.2.player pid = some h) (hb : a.1.getRigidBody h = some b) :
    Table.lookup (es.foldl (reconcilePlayerStep s) a).2.player pid = some h ∧
    (es.foldl (reconcilePlayerStep s) a).1.getRigidBody h = some b := by
  refine foldl_preserves_mem (P := fun acc : World × WorldReferences =>
      Table.lookup acc.2.player pid = some h ∧ acc.1.getRigidBody h = some b) es ?_ ⟨hlk, hb⟩
  intro acc e he hp
  exact ⟨(reconcilePlayerStep_table s acc e hin).trans hp.1,
    reconcilePlayerStep_body s acc e hp.2 (hdis e he)⟩

theorem reconcilePlayerLoop_keepSoldier (s : GameState) (es : List (String × Nat))
    (sid : String) (h : Nat) (b : Body)
    (hdis : ∀ e ∈ es, Table.contains s.players e.1 = false → e.2 ≠ h)
    (a : World × WorldReferences)
    (hlk : Table.lookup a.2.soldier sid = some h) (hb : a.1.getRigidBody h = some b) :
    Table.lookup (es.foldl (reconcilePlayerStep s) a).2.soldier sid = some h ∧
    (es.foldl (reconcilePlayerStep s) a).1.getRigidBody h = some b := by
  refine foldl_preserves_mem (P := fun acc : World × WorldReferences =>
      Table.lookup acc.2.soldier sid = some h ∧ acc.1.getRigidBody h = some b) es ?_ ⟨hlk, hb⟩
  intro acc e he hp
  refine ⟨?_, reconcilePlayerStep_body s acc e hp.2 (hdis e he)⟩
  rw [reconcilePlayerStep_soldier s acc e]
  exact hp.1

theorem reconcileSoldierLoop_keep (s : GameState) (es : List (String × Nat))
    (sid : String) (h : Nat) (b : Body)
    (hin : Table.contains s.soldiers sid = true)
    (hdis : ∀ e ∈ es, Table.contains s.soldiers e.1 = false → e.2 ≠ h)
    (a : World × WorldReferences)
    (hlk : Table.lookup a.2.soldier sid = some h) (hb : a.1.getRigidBody h = some b) :
    Table.lookup (es.foldl (reconcileSoldierStep s) a).2.soldier sid = some h ∧
    (es.foldl (reconcileSoldierStep s) a).1.getRigidBody h = some b := by
  refine foldl_preserves_mem (P := fun acc : World × WorldReferences =>
      Table.lookup acc.2.soldier sid = some h ∧ acc.1.getRigidBody h = some b) es ?_ ⟨hlk, hb⟩
  intro acc e he hp
  exact ⟨(reconcileSoldierStep_table s acc e hin).trans hp.1,
    reconcileSoldierStep_body s acc e hp.2 (hdis e he)⟩

theorem reconcileSoldierLoop_keepPlayer (s : GameState) (es : List (String × Nat))
    (pid : String) (h : Nat) (b : Body)
    (hdis : ∀ e ∈ es, Table.contains s.soldiers e.1 = false → e.2 ≠ h)
    (a : World × WorldReferences)
    (hlk : Table.lookup a.2.player pid = some h) (hb : a.1.getRigidBody h = some b) :
    Table.lookup (es.foldl (reconcileSoldierStep s) a).2.player pid = some h ∧
    (es.foldl (reconcileSoldierStep s) a).1.getRigidBody h = some b := by
  refine foldl_preserves_mem (P := fun acc : World × WorldReferences =>
      Table.lookup acc.2.player pid = some h ∧ acc.1.getRigidBody h = some b) es ?_ ⟨hlk, hb⟩
  intro acc e he hp
  refine ⟨?_, reconcileSoldierStep_body s acc e hp.2 (hdis e he)⟩
  rw [reconcileSoldierStep_player s acc e]
  exact hp.1

theorem syncToWorld_spec (w : World) (s : GameState) (refs : WorldReferences)
    (hs : StateWF s) (hw : WorldWF w) (hr : RefsWF w refs) :
    (∀ pid p, Table.lookup s.players pid = some p →
      PlayerPlaced (syncToWorld w s refs) pid p.position) ∧
    (∀ sid sol, Table.lookup s.soldiers sid = some sol →
      SoldierPlaced (syncToWorld w s refs) sid sol.position) := by
  obtain ⟨wf1, refs1, sold1, place1, keepP1, keepS1, look1⟩ :=
    playersLoop_spec s s.players (w, refs) hs.playersNodup hw hr
  obtain ⟨wf2, refs2, play2, place2, keepS2, keepP2⟩ :=
    soldiersLoop_spec s s.soldiers (s.players.foldl (playerSyncStep s) (w, refs))
      hs.soldiersNodup wf1 refs1
  set a2 := s.soldiers.foldl (soldierSyncStep s) (s.players.foldl (playerSyncStep s) (w, refs))
    with ha2
  have hsold3 : (a2.2.player.foldl (reconcilePlayerStep s) a2).2.soldier = a2.2.soldier :=
    reconcilePlayerLoop_soldierEq s a2.2.player a2
  constructor
  · intro pid p hp
    have hmem : (pid, p) ∈ s.players := Table.lookup_mem hp
    obtain ⟨h, b, hlk, hb, htr⟩ := keepP2 pid p.position (place1 (pid, p) hmem)
    have hin : Table.contains s.players pid = true := by simp [Table.contains, hp]
    have hlive : liveAt a2.1 h := by simp [liveAt, hb]
    have hdis3 : ∀ e ∈ a2.2.player, Table.contains s.players e.1 = false → e.2 ≠ h := by
      intro e he hcf hEq
      have hle : Table.lookup a2.2.player e.1 = some e.2 :=
        Table.mem_lookup refs2.playerNodup he
      rw [hEq] at hle
      have heq1 : e.1 = pid := refs2.playerInj e.1 pid h hle hlk hlive
      rw [heq1] at hcf
      rw [hin] at hcf
      exact Bool.noConfusion hcf
    obtain ⟨hk3, hb3⟩ := reconcilePlayerLoop_keep s a2.2.player pid h b hin hdis3 a2 hlk hb
    have hdis4 : ∀ e ∈ a2.2.soldier, Table.contains s.soldiers e.1 = false → e.2 ≠ h := by
      intro e he hcf hEq
      have hle : Table.lookup a2.2.soldier e.1 = some e.2 :=
        Table.mem_lookup refs2.soldierNodup he
      rw [hEq] at hle
      exact refs2.cross pid e.1 h hlk hle hlive
    obtain ⟨hk4, hb4⟩ := reconcileSoldierLoop_keepPlayer s
      (a2.2.player.foldl (reconcilePlayerStep s) a2).2.soldier pid h b
      (by rw [hsold3]; exact hdis4)
      (a2.2.player.foldl (reconcilePlayerStep s) a2) hk3 hb3
    exact ⟨h, b, hk4, hb4, htr⟩
  · intro sid sol hp
    have hmem : (sid, sol) ∈ s.soldiers := Table.lookup_mem hp
    obtain ⟨h, b, hlk, hb, htr⟩ := place2 (sid, sol) hmem
    have hin : Table.contains s.soldiers sid = true := by simp [Table.contains, hp]
    have hlive : liveAt a2.1 h := by simp [liveAt, hb]
    have hdis3 : ∀ e ∈ a2.2.player, Table.contains s.players e.1 = false → e.2 ≠ h := by
      intro e he hcf hEq
      have hle : Table.lookup a2.2.player e.1 = some e.2 :=
        Table.mem_lookup refs2.playerNodup he
      rw [hEq] at hle
      exact refs2.cross e.1 sid h hle hlk hlive
    obtain ⟨hk3, hb3⟩ := reconcilePlayerLoop_keepSoldier s a2.2.player sid h b hdis3 a2 hlk hb
    have hdis4 : ∀ e ∈ a2.2.soldier, Table.contains s.soldiers e.1 = false → e.2 ≠ h := by
      intro e he hcf hEq
      have hle : Table.lookup a2.2.soldier e.1 = some e.2 :=
        Table.mem_lookup refs2.soldierNodup he
      rw [hEq] at hle
      have heq1 : e.1 = sid := refs2.soldierInj e.1 sid h hle hlk hlive
      rw [heq1] at hcf
      rw [hin] at hcf
      exact Bool.noConfusion hcf
    obtain ⟨hk4, hb4⟩ := reconcileSoldierLoop_keep s
      (a2.2.player.foldl (reconcilePlayerStep s) a2).2.soldier sid h b hin
      (by rw [hsold3]; exact hdis4)
      (a2.2.player.foldl (reconcilePlayerStep s) a2) hk3 hb3
    exact ⟨h, b, hk4, hb4, htr⟩

/-- C1: for every well-formed state, world and reference table (keys
duplicate-free, handles issued by the world, live handles owned by at most
one entity), running `syncToWorld` and then `syncFromWorld` with no physics
step in between returns a state in which every player's and every soldier's
position equals its position in the input state: the round trip is the
identity on positions when no simulation time elapses. -/
theorem syncToWorld_syncFromWorld_roundTrip (s : GameState) (w : World)
    (refs : WorldReferences) (hs : StateWF s) (hw : WorldWF w) (hr : RefsWF w refs) :
    RoundTrips s w refs := by
  obtain ⟨hP, hS⟩ := syncToWorld_spec w s refs hs hw hr
  constructor
  · intro pid
    have hpf : (syncFromWorld (syncToWorld w s refs).1 (syncToWorld w s refs).2 s).players =
        s.players.foldl (playerFromStep (syncToWorld w s refs).1 (syncToWorld w s refs).2 s)
          [] := rfl
    rw [hpf, playerFromStep_eq, buildFold_lookup _ _ hs.playersNodup]
    cases hsp : Table.lookup s.players pid with
    | none => rfl
    | some p =>
      obtain ⟨h, b, hlk, hbd, htr⟩ := hP pid p hsp
      have hbind : (Table.lookup (syncToWorld w s refs).2.player pid).bind
          (syncToWorld w s refs).1.getRigidBody = some b := by
        rw [hlk]
        exact hbd
      simp only [playerFromValue, hbind]
      rw [htr]
      rfl
  · intro sid
    have hsf : (syncFromWorld (syncToWorld w s refs).1 (syncToWorld w s refs).2 s).soldiers =
        s.soldiers.foldl (soldierFromStep (syncToWorld w s refs).1 (syncToWorld w s refs).2 s)
          [] := rfl
    rw [hsf, soldierFromStep_eq, buildFold_lookup _ _ hs.soldiersNodup]
    cases hsp : Table.lookup s.soldiers sid with
    | none => rfl
    | some sol =>
      obtain ⟨h, b, hlk, hbd, htr⟩ := hS sid sol hsp
      have hbind : (Table.lookup (syncToWorld w s refs).2.soldier sid).bind
          (syncToWorld w s refs).1.getRigidBody = some b := by
        rw [hlk]
        exact hbd
      simp only [soldierFromValue, hbind]
      rw [htr]
      rfl

/-- Witness for C1 at the sample state, the empty world and fresh
references. -/
theorem syncToWorld_syncFromWorld_roundTrip_witness :
    StateWF sEx ∧ WorldWF emptyWorld ∧ RefsWF emptyWorld createWorldReferences ∧
    RoundTrips sEx emptyWorld createWorldReferences := by
  have hs : StateWF sEx := ⟨by simp [sEx, Table.keys], by simp [sEx, Table.keys]⟩
  have hw : WorldWF emptyWorld := ⟨fun h b hb => by simp [emptyWorld, Table.lookup] at hb,
    by simp [emptyWorld, Table.keys]⟩
  have hr : RefsWF emptyWorld createWorldReferences := by
    constructor
    · simp [createWorldReferences, Table.keys]
    · simp [createWorldReferences, Table.keys]
    · intro pid h hl
      simp [createWorldReferences, Table.lookup] at hl
    · intro sid h hl
      simp [createWorldReferences, Table.lookup] at hl
    · intro p1 p2 h h1 h2 hl
      simp [createWorldReferences, Table.lookup] at h1
    · intro s1 s2 h h1 h2 hl
      simp [createWorldReferences, Table.lookup] at h1
    · intro pid sid h h1 h2 hl
      simp [createWorldReferences, Table.lookup] at h1
  exact ⟨hs, hw, hr,
    syncToWorld_syncFromWorld_roundTrip sEx emptyWorld createWorldReferences hs hw hr⟩

/-- C2: for every participant id that is absent from the logical state but
still has an entry in the reference table, `syncToWorld` removes the mapped
physics body from the world and deletes the id's mapping entry (this
variant of `WorldReferences` stores the mapping in the id-to-handle
direction only, so deleting the entry removes the whole mapping for the
id). -/
theorem syncToWorld_reconciles (w : World) (s : GameState) (refs : WorldReferences)
    (hs : StateWF s) (hw : WorldWF w) (hr : RefsWF w refs) (pid : String) (h : Nat)
    (hmap : Table.lookup refs.player pid = some h)
    (hgone : Table.lookup s.players pid = none) :
    Table.lookup (syncToWorld w s refs).2.player pid = none ∧
    (syncToWorld w s refs).1.getRigidBody h = none := by
  obtain ⟨wf1, refs1, sold1, place1, keepP1, keepS1, look1⟩ :=
    playersLoop_spec s s.players (w, refs) hs.playersNodup hw hr
  obtain ⟨wf2, refs2, play2, place2, keepS2, keepP2⟩ :=
    soldiersLoop_spec s s.soldiers (s.players.foldl (playerSyncStep s) (w, refs))
      hs.soldiersNodup wf1 refs1
  set a2 := s.soldiers.foldl (soldierSyncStep s) (s.players.foldl (playerSyncStep s) (w, refs))
    with ha2
  have hnotin : pid ∉ Table.keys s.players := by
    intro hm
    obtain ⟨v, hv⟩ := Table.exists_lookup_of_mem_keys hm
    rw [hgone] at hv
    exact Option.noConfusion hv
  have hlk1 : Table.lookup (s.players.foldl (playerSyncStep s) (w, refs)).2.player pid =
      some h := by
    rw [look1 pid hnotin]
    exact hmap
  have hlk2 : Table.lookup a2.2.player pid = some h := by
    rw [play2]
    exact hlk1
  have hmem : (pid, h) ∈ a2.2.player := Table.lookup_mem hlk2
  have hcf : Table.contains s.players pid = false := by
    simp [Table.contains, hgone]
  obtain ⟨l1, l2, hsplit⟩ := mem_split hmem
  have hmid := reconcilePlayerStep_removes s (l1.foldl (reconcilePlayerStep s) a2) (pid, h) hcf
  have h3 : Table.lookup (a2.2.player.foldl (reconcilePlayerStep s) a2).2.player pid = none ∧
      (a2.2.player.foldl (reconcilePlayerStep s) a2).1.getRigidBody h = none := by
    rw [hsplit, List.foldl_append, List.foldl_cons]
    have hstep : ∀ (acc : World × WorldReferences) (e : String × Nat),
        Table.lookup acc.2.player pid = none ∧ acc.1.getRigidBody h = none →
        Table.lookup (reconcilePlayerStep s acc e).2.player pid = none ∧
          (reconcilePlayerStep s acc e).1.getRigidBody h = none := by
      intro acc e hp
      obtain ⟨hbn, hpn⟩ := reconcilePlayerStep_none s acc e h pid hp.2 hp.1
      exact ⟨hpn, hbn⟩
    exact foldl_preserves (P := fun acc : World × WorldReferences =>
        Table.lookup acc.2.player pid = none ∧ acc.1.getRigidBody h = none)
      hstep l2 ⟨hmid.1, hmid.2⟩
  have hstep4 : ∀ (acc : World × WorldReferences) (e : String × Nat),
      Table.lookup acc.2.player pid = none ∧ acc.1.getRigidBody h = none →
      Table.lookup (reconcileSoldierStep s acc e).2.player pid = none ∧
        (reconcileSoldierStep s acc e).1.getRigidBody h = none := by
    intro acc e hp
    obtain ⟨hbn, hpn⟩ := reconcileSoldierStep_none s acc e h pid hp.2 hp.1
    exact ⟨hpn, hbn⟩
  exact foldl_preserves (P := fun acc : World × WorldReferences =>
      Table.lookup acc.2.player pid = none ∧ acc.1.getRigidBody h = none)
    hstep4 (a2.2.player.foldl (reconcilePlayerStep s) a2).2.soldier h3

/-- Witness for C2: a departed participant "gone" still mapped to the live
body at handle 0; the reconciliation deletes both the body and the
mapping entry. -/
theorem syncToWorld_reconciles_witness :
    StateWF sEx ∧ WorldWF wEx2 ∧ RefsWF wEx2 refsEx2 ∧
    Table.lookup refsEx2.player "gone" = some 0 ∧
    Table.lookup sEx.players "gone" = none ∧
    Table.lookup (syncToWorld wEx2 sEx refsEx2).2.player "gone" = none ∧
    (syncToWorld wEx2 sEx refsEx2).1.getRigidBody 0 = none := by
  have hs : StateWF sEx := ⟨by simp [sEx, Table.keys], by simp [sEx, Table.keys]⟩
  have hw : WorldWF wEx2 := by
    constructor
    · intro h b hb
      show h < 1
      simp only [wEx2, Table.lookup] at hb
      split at hb
      · omega
      · exact Option.noConfusion hb
    · simp [wEx2, Table.keys]
  have hr : RefsWF wEx2 refsEx2 := by
    constructor
    · simp [refsEx2, Table.keys]
    · simp [refsEx2, Table.keys]
    · intro pid h hl
      show h < 1
      simp only [refsEx2, Table.lookup] at hl
      split at hl
      · have h0 := Option.some.inj hl
        omega
      · exact Option.noConfusion hl
    · intro sid h hl
      simp [refsEx2, Table.lookup] at hl
    · intro p1 p2 h h1 h2 hl
      simp only [refsEx2, Table.lookup] at h1 h2
      split at h1
      · split at h2
        · rename_i hg1 hg2
          rw [← hg1, ← hg2]
        · exact Option.noConfusion h2
      · exact Option.noConfusion h1
    · intro s1 s2 h h1 h2 hl
      simp [refsEx2, Table.lookup] at h1
    · intro pid sid h h1 h2 hl
      simp [refsEx2, Table.lookup] at h2
  have hmap : Table.lookup refsEx2.player "gone" = some 0 := by
    simp [refsEx2, Table.lookup]
  have hgone : Table.lookup sEx.players "gone" = none := by
    simp [sEx, Table.lookup]
  obtain ⟨h1, h2⟩ := syncToWorld_reconciles wEx2 sEx refsEx2 hs hw hr "gone" 0 hmap hgone
  exact ⟨hs, hw, hr, hmap, hgone, h1, h2⟩
